import Mathlib

/-! Boat manager (`boat_manager.c`): shallow embedding and verified properties.

The C program keeps a global array `boats[MAX_BOATS]` of pointers to heap
records together with `boat_count`.  Every record is allocated separately and
is reachable through exactly one slot, so the live prefix
`boats[0 .. boat_count)` is modelled as a `List Boat`.

* `float` is modelled bit-exactly as IEEE-754 binary32 (`F32`); every
  arithmetic operation is rounded to binary32, to nearest with ties to even
  (no excess precision, no fused multiply-add).  Which NaN an operation
  returns is not fixed by C: of a NaN result only `isNaN` is meaningful.
* C strings are lists of bytes (`CStr`); a zero byte or the end of the list
  terminates the string.
* `qsort` and the `%f` conversion of `sscanf` are library code; they are taken
  as a parameter (`Libc`) constrained only by their documented contract.
* `malloc` is assumed to succeed (the `exit(1)` paths are not modelled).
-/

namespace BoatManager

set_option maxRecDepth 100000

/-! ## IEEE-754 binary32 -/

/-- A binary32 value: the sign bit and the remaining 31 bits (biased exponent
and fraction) read as one number `mag = exponent * 2^23 + fraction`. -/
structure F32 where
  sign : Bool
  mag : Nat
  mag_lt : mag < 2147483648

/-- Equality of bit patterns, decided on the two fields that carry data. -/
instance : DecidableEq F32 := fun a b =>
  match a, b with
  | ⟨sa, ma, _⟩, ⟨sb, mb, _⟩ =>
    if h : sa = sb ∧ ma = mb then isTrue (by cases h.1; cases h.2; rfl)
    else isFalse (fun e => h (by cases e; exact ⟨rfl, rfl⟩))

namespace F32

/-- Bits of an infinity: exponent field 255, fraction 0. -/
def infMag : Nat := 2139095040

/-- The default quiet NaN. -/
def nan : F32 := ⟨false, 2143289344, by omega⟩

/-- An infinity of the given sign. -/
def inf (neg : Bool) : F32 := ⟨neg, infMag, by unfold infMag; omega⟩

/-- A zero of the given sign. -/
def zero (neg : Bool) : F32 := ⟨neg, 0, by omega⟩

def isNaN (x : F32) : Bool := decide (infMag < x.mag)

def isInf (x : F32) : Bool := decide (x.mag = infMag)

def isFinite (x : F32) : Bool := decide (x.mag < infMag)

def isZero (x : F32) : Bool := decide (x.mag = 0)

/-- Absolute value of a finite `x` counted in units of `2^-149` (the smallest
subnormal): `fraction` for exponent field 0, else
`(2^23 + fraction) * 2^(exponent - 1)`. -/
def units (x : F32) : Nat :=
  let e := x.mag / 8388608
  let f := x.mag % 8388608
  if e = 0 then f else (8388608 + f) * 2 ^ (e - 1)

/-- Signed value of a finite `x` in units of `2^-149`. -/
def toInt (x : F32) : Int := if x.sign then -(x.units : Int) else (x.units : Int)

/-- How many times `q` must be halved to drop below `2^24` (bounded by the fuel). -/
def excess : Nat → Nat → Nat
  | 0, _ => 0
  | fuel + 1, q => if q < 16777216 then 0 else excess fuel (q / 2) + 1

/-- Round-to-nearest, ties-to-even, of the non-negative rational `n / d`
(counted in units of `2^-149`) to binary32, with the given sign.  `sh` is the
binary exponent of the result's quantum; adding the rounded significand to
`sh * 2^23` carries into the exponent field when the significand rounds up to
`2^24`, and results at or beyond the exponent field 255 are infinite. -/
def roundUnits (neg : Bool) (n d : Nat) : F32 :=
  let sh := excess 256 (n / d)
  let den := d * 2 ^ sh
  let m0 := n / den
  let r := n % den
  let m := if den < 2 * r ∨ (2 * r = den ∧ m0 % 2 = 1) then m0 + 1 else m0
  ⟨neg, min (sh * 8388608 + m) infMag, by
    have h : min (sh * 8388608 + m) infMag ≤ infMag := Nat.min_le_right _ _
    unfold infMag at h ⊢
    omega⟩

/-- The binary32 value nearest to the decimal literal `n / d`. -/
def ofRat (neg : Bool) (n d : Nat) : F32 := roundUnits neg (n * 2 ^ 149) d

/-- Unary minus: flips the sign bit. -/
def neg (x : F32) : F32 := ⟨!x.sign, x.mag, x.mag_lt⟩

/-- Binary32 addition. -/
def add (a b : F32) : F32 :=
  if a.isNaN then a
  else if b.isNaN then b
  else if a.isInf then (if b.isInf && (a.sign != b.sign) then nan else a)
  else if b.isInf then b
  else
    let s := a.toInt + b.toInt
    if s = 0 then zero (a.sign && b.sign)
    else roundUnits (decide (s < 0)) s.natAbs 1

/-- Binary32 subtraction `a - b`. -/
def sub (a b : F32) : F32 := add a (neg b)

/-- Binary32 multiplication. -/
def mul (a b : F32) : F32 :=
  if a.isNaN then a
  else if b.isNaN then b
  else if a.isInf || b.isInf then
    (if a.isZero || b.isZero then nan else inf (a.sign != b.sign))
  else roundUnits (a.sign != b.sign) (a.units * b.units) (2 ^ 149)

/-- Sign-magnitude reading of the bits; it orders all non-NaN values as the
reals they denote (both zeros map to 0, the infinities to the extremes). -/
def key (x : F32) : Int := if x.sign then -(x.mag : Int) else (x.mag : Int)

/-- C `a < b`. -/
def lt (a b : F32) : Bool := !a.isNaN && !b.isNaN && decide (a.key < b.key)

/-- C `a > b`. -/
def gt (a b : F32) : Bool := lt b a

/-- C `a <= b`. -/
def le (a b : F32) : Bool := !a.isNaN && !b.isNaN && decide (a.key ≤ b.key)

/-- C `a >= b`. -/
def ge (a b : F32) : Bool := le b a

/-- C `a == b`. -/
def eq (a b : F32) : Bool := !a.isNaN && !b.isNaN && decide (a.key = b.key)

end F32

/-! ## C strings and the library functions used on them -/

/-- A C string: the bytes before the terminating NUL. -/
abbrev CStr := List Nat

/-- ASCII string literal as a C string. -/
def cstr (s : String) : CStr := s.toList.map Char.toNat

/-- The function `tolower` in the "C" locale (the program never calls `setlocale`). -/
def tolower (c : Nat) : Nat := if 65 ≤ c ∧ c ≤ 90 then c + 32 else c

/-- The function `isspace` in the "C" locale. -/
def isspace (c : Nat) : Bool := c == 32 || (9 ≤ c && c ≤ 13)

/-- The function `isdigit`. -/
def isdigit (c : Nat) : Bool := 48 ≤ c && c ≤ 57

/-- The function `strcasecmp`: difference of the first pair of bytes that differ after
`tolower`, the end of a string counting as the byte 0; 0 when the strings
agree up to and including their terminator. -/
def strcasecmp : CStr → CStr → Int
  | [], [] => 0
  | [], b :: _ => 0 - (tolower b : Int)
  | a :: _, [] => (tolower a : Int)
  | a :: as, b :: bs =>
    if tolower a = tolower b then (if a = 0 then 0 else strcasecmp as bs)
    else (tolower a : Int) - (tolower b : Int)

/-- The function `strcmp`, as `strcasecmp` without case folding. -/
def strcmp : CStr → CStr → Int
  | [], [] => 0
  | [], b :: _ => 0 - (b : Int)
  | a :: _, [] => (a : Int)
  | a :: as, b :: bs =>
    if a = b then (if a = 0 then 0 else strcmp as bs) else (a : Int) - (b : Int)

/-- Value of the leading decimal digits of `s`, accumulated onto `acc`. -/
def digitsValue : CStr → Nat → Nat
  | [], acc => acc
  | c :: rest, acc => if isdigit c then digitsValue rest (acc * 10 + (c - 48)) else acc

/-- Conversion of a `long` to `int`: the low 32 bits, two's complement. -/
def wrap32 (x : Int) : Int := (x + 2147483648) % 4294967296 - 2147483648

/-- The function `atoi`, that is `(int) strtol(s, NULL, 10)`: leading white space, an
optional sign, decimal digits; `strtol` saturates at the range of a 64-bit
`long`. -/
def atoi (s : CStr) : Int :=
  let t := s.dropWhile isspace
  let v : Int :=
    match t with
    | 45 :: r => max (-(digitsValue r 0 : Int)) (-9223372036854775808)
    | 43 :: r => min (digitsValue r 0 : Int) 9223372036854775807
    | _ => min (digitsValue t 0 : Int) 9223372036854775807
  wrap32 v

/-! ## Data model -/

def MAX_BOATS : Nat := 120

/-- The enum `Location` together with the member of the union `LocationInfo`
it selects.  `UNSET` is the state of a record whose `location_type` and
`location_info` were never assigned (the parser leaves them so when the kind
string is not recognised).  In the program such a record holds whatever
`malloc` left in the two fields, which may happen to be one of the four tags;
`rate` and `saveLine` give for `UNSET` the behaviour of a tag that matches no
`case` label, so what they say of a record left `UNSET` by the parser is the
behaviour of the program only when the left-over tag is none of the four. -/
inductive Location
  | SLIP (slip_num : Int)
  | LAND (bay_letter : Nat)
  | TRAILOR (license_tag : CStr)
  | STORAGE (storage_num : Int)
  | UNSET
deriving DecidableEq

structure Boat where
  name : CStr
  length : F32
  location : Location
  amount_owed : F32
deriving DecidableEq

/-- The globals `boats` / `boat_count`: the records `boats[0 .. boat_count)`. -/
structure Store where
  boats : List Boat
deriving DecidableEq

def Store.boat_count (s : Store) : Nat := s.boats.length

/-- The empty store of program start (`boat_count = 0`). -/
def Store.empty : Store := ⟨[]⟩

/-- What the program prints on an error path (the `printf` / `perror` calls). -/
inductive Msg
  | noBoatWithThatName
  | marinaIsFull
  | invalidBoatDataFormat
  | moreThanTheAmountOwed (owed : F32)
  | failedToOpenFile
deriving DecidableEq

/-- The function `compareBoats`: `strcasecmp` of the two names. -/
def compareBoats (a b : Boat) : Int := strcasecmp a.name b.name

/-- The order `sortBoats` establishes: every earlier record compares `<=`
every later one. -/
def Sorted (l : List Boat) : Prop := l.Pairwise (fun a b => compareBoats a b ≤ 0)

/-- Library code the program calls but does not define.
* `strtof s` is the `%f` conversion applied to `s` (white space already
  skipped): the value read and the unread rest, or `none` on a matching
  failure.
* `qsort cmp l` is `qsort(boats, boat_count, sizeof(Boat*), cmp)`. -/
structure Libc where
  strtof : CStr → Option (F32 × CStr)
  qsort : (Boat → Boat → Int) → List Boat → List Boat

/-- The contract of `qsort` for the comparison the program passes: the array
is permuted into ascending order.  Which of several elements that compare
equal comes first is left open. -/
def Libc.Conforming (L : Libc) : Prop :=
  (∀ l, (L.qsort compareBoats l).Perm l) ∧ (∀ l, Sorted (L.qsort compareBoats l))

/-! ## Utility functions -/

/-- The function `sortBoats`: `qsort` of the live records with `compareBoats`. -/
def sortBoats (L : Libc) (s : Store) : Store := ⟨L.qsort compareBoats s.boats⟩

/-- The loop of `findBoatIndex`, entered at index `i` with the records from
`i` on still to be examined. -/
def findBoatIndexFrom (name : CStr) : List Boat → Nat → Int
  | [], _ => -1
  | b :: rest, i =>
    if strcasecmp b.name name = 0 then (i : Int) else findBoatIndexFrom name rest (i + 1)

/-- The function `findBoatIndex`: index of the first record whose name matches, or -1. -/
def findBoatIndex (s : Store) (name : CStr) : Int := findBoatIndexFrom name s.boats 0

/-! ## Core operations -/

/-- The loop `for (i = index; i < boat_count - 1; i++) boats[i] = boats[i + 1];`
with `k` iterations left to run at index `i`. -/
def shiftDown (boats : List Boat) : Nat → Nat → List Boat
  | _, 0 => boats
  | i, k + 1 =>
    match boats[i + 1]? with
    | some b => shiftDown (boats.set i b) (i + 1) k
    | none => boats

/-- The function `removeBoat`: the record found is freed, the records behind it move down
one slot each, and `boat_count--` drops the last slot. -/
def removeBoat (s : Store) (name : CStr) : Store × Option Msg :=
  let index := findBoatIndex s name
  if index = -1 then (s, some Msg.noBoatWithThatName)
  else
    (⟨(shiftDown s.boats index.toNat (s.boat_count - 1 - index.toNat)).take (s.boat_count - 1)⟩,
      none)

/-- The function `takePayment`: a payment greater than the balance is refused with a
message, any other amount is subtracted from the balance. -/
def takePayment (s : Store) (name : CStr) (amount : F32) : Store × Option Msg :=
  let index := findBoatIndex s name
  if index = -1 then (s, some Msg.noBoatWithThatName)
  else
    match s.boats[index.toNat]? with
    | none => (s, none)
    | some b =>
      if F32.gt amount b.amount_owed then (s, some (Msg.moreThanTheAmountOwed b.amount_owed))
      else
        (⟨s.boats.set index.toNat { b with amount_owed := F32.sub b.amount_owed amount }⟩, none)

/-- The literals `12.5f`, `14.0f`, `25.0f`, `11.2f` selected by the `switch`
of `chargeMonthly`; `rate` keeps its initial value 0 when no case matches. -/
def rate : Location → F32
  | Location.SLIP _ => F32.ofRat false 125 10
  | Location.LAND _ => F32.ofRat false 14 1
  | Location.TRAILOR _ => F32.ofRat false 25 1
  | Location.STORAGE _ => F32.ofRat false 112 10
  | Location.UNSET => F32.zero false

/-- Body of the loop of `chargeMonthly` for one record. -/
def chargeBoat (b : Boat) : Boat :=
  { b with amount_owed := F32.add b.amount_owed (F32.mul b.length (rate b.location)) }

/-- The function `chargeMonthly`: the loop over all live records. -/
def chargeMonthly (s : Store) : Store := ⟨s.boats.map chargeBoat⟩

/-! ## Line parsing and file loading -/

/-- The conversion `%N[^,]`: the longest run of at most `n` bytes that are
not a comma; it fails when that run is empty. -/
def scanField (n : Nat) (s : CStr) : Option (CStr × CStr) :=
  let tok := (s.takeWhile (fun c => c != 44 && c != 0)).take n
  if tok.isEmpty then none else some (tok, s.drop tok.length)

/-- The literal `,` of the format string. -/
def scanComma : CStr → Option CStr
  | 44 :: r => some r
  | _ => none

/-- The conversion `%f`: white space is skipped, then `strtof` reads the number. -/
def scanFloat (L : Libc) (s : CStr) : Option (F32 × CStr) := L.strtof (s.dropWhile isspace)

/-- The call `sscanf(s, "%127[^,],%f,%15[^,],%31[^,],%f", ...)`: `some` of the
five values assigned when it returns 5, `none` when it returns anything else. -/
def sscanf (L : Libc) (s : CStr) : Option (CStr × F32 × CStr × CStr × F32) :=
  match scanField 127 s with
  | none => none
  | some (name, s1) =>
  match scanComma s1 with
  | none => none
  | some s2 =>
  match scanFloat L s2 with
  | none => none
  | some (length, s3) =>
  match scanComma s3 with
  | none => none
  | some s4 =>
  match scanField 15 s4 with
  | none => none
  | some (type, s5) =>
  match scanComma s5 with
  | none => none
  | some s6 =>
  match scanField 31 s6 with
  | none => none
  | some (extra, s7) =>
  match scanComma s7 with
  | none => none
  | some s8 =>
  match scanFloat L s8 with
  | none => none
  | some (owed, _) => some (name, length, type, extra, owed)

/-- The `if (strcmp(type, ...) == 0) ... else if ...` chain shared by
`loadCSV` and `addBoatFromCSV`; `extra[0]` of an empty string is its
terminator. -/
def locationOf (type extra : CStr) : Location :=
  if strcmp type (cstr "slip") = 0 then Location.SLIP (atoi extra)
  else if strcmp type (cstr "land") = 0 then Location.LAND (extra.headD 0)
  else if strcmp type (cstr "trailor") = 0 then Location.TRAILOR extra
  else if strcmp type (cstr "storage") = 0 then Location.STORAGE (atoi extra)
  else Location.UNSET

/-- The record that `loadCSV` and `addBoatFromCSV` build from one line, when
`sscanf` returns 5. -/
def parseBoat (L : Libc) (line : CStr) : Option Boat :=
  match sscanf L line with
  | none => none
  | some (name, length, type, extra, owed) =>
    some { name := name, length := length, location := locationOf type extra,
           amount_owed := owed }

/-- Body of the `while (fgets ...)` loop of `loadCSV` for one line. -/
def loadLine (L : Libc) (boats : List Boat) (line : CStr) : List Boat :=
  match parseBoat L line with
  | some b => boats ++ [b]
  | none => boats

/-- The function `loadCSV`; `file` is `none` when `fopen` fails, else the lines `fgets`
delivers.  The loop stores to `boats[boat_count++]` without comparing
`boat_count` to `MAX_BOATS`.  The list returned is the store of the program
as long as it holds at most `MAX_BOATS` records; a longer list records that
the loop stored past the end of `boats[MAX_BOATS]`, where C defines no
behaviour and the list says nothing about the program beyond the number of
stores the loop performs. -/
def loadCSV (L : Libc) (s : Store) (file : Option (List CStr)) : Store × Option Msg :=
  match file with
  | none => (s, some Msg.failedToOpenFile)
  | some lines => (sortBoats L ⟨lines.foldl (loadLine L) s.boats⟩, none)

/-- The function `addBoatFromCSV`: the capacity test, then the parse of the line, then
the append and the sort. -/
def addBoatFromCSV (L : Libc) (s : Store) (csv : CStr) : Store × Option Msg :=
  if s.boat_count ≥ MAX_BOATS then (s, some Msg.marinaIsFull)
  else
    match parseBoat L csv with
    | some b => (sortBoats L ⟨s.boats ++ [b]⟩, none)
    | none => (s, some Msg.invalidBoatDataFormat)

/-! ## The command loop of `main` -/

/-- One menu choice together with the input lines read for it. -/
inductive Cmd
  | inventory
  | add (csv : CStr)
  | remove (name : CStr)
  | payment (name : CStr) (amount : F32)
  | month

/-- One iteration of the `while (1)` loop of `main`, as a store transformer. -/
def step (L : Libc) (s : Store) : Cmd → Store
  | Cmd.inventory => s
  | Cmd.add csv => (addBoatFromCSV L s csv).1
  | Cmd.remove name => (removeBoat s name).1
  | Cmd.payment name amount =>
    if findBoatIndex s name = -1 then s else (takePayment s name amount).1
  | Cmd.month => chargeMonthly s

/-- A session: `loadCSV` on the file named on the command line, then the commands. -/
def session (L : Libc) (file : Option (List CStr)) (cmds : List Cmd) : Store :=
  cmds.foldl (step L) (loadCSV L Store.empty file).1

/-! ## Saving -/

/-- Decimal digits of `n`, most significant first, pushed in front of `acc`;
the fuel bounds the number of digits produced. -/
def decDigits : Nat → Nat → CStr → CStr
  | 0, _, acc => acc
  | fuel + 1, n, acc =>
    if n < 10 then (n + 48) :: acc else decDigits fuel (n / 10) ((n % 10 + 48) :: acc)

/-- The decimal numeral of `n` in ASCII. -/
def natDigits (n : Nat) : CStr := decDigits (n + 1) n []

/-- The integer nearest to `n / d`, ties going to the even one. -/
def roundHalfEven (n d : Nat) : Nat :=
  if d < 2 * (n % d) ∨ (2 * (n % d) = d ∧ (n / d) % 2 = 1) then n / d + 1 else n / d

/-- The absolute value of a finite `x` times `10^prec`, rounded to an
integer as `printf` does (exact value, round to nearest, ties to even). -/
def F32.scaled (x : F32) (prec : Nat) : Nat := roundHalfEven (x.units * 10 ^ prec) (2 ^ 149)

/-- The sign that `printf` writes in front of a number. -/
def signText (x : F32) : CStr := if x.sign then [45] else []

/-- The `prec` digits after the decimal point of the scaled value `m`. -/
def fracDigits (m prec : Nat) : CStr :=
  (List.range prec).map (fun i => (m / 10 ^ (prec - 1 - i)) % 10 + 48)

/-- The conversions `%.0f` (`prec = 0`) and `%.2f` (`prec = 2`) of `printf`
applied to a `float` argument, as glibc performs them. -/
def fmtFixed (prec : Nat) (x : F32) : CStr :=
  if x.isNaN then signText x ++ cstr "nan"
  else if x.isInf then signText x ++ cstr "inf"
  else
    signText x ++ natDigits (x.scaled prec / 10 ^ prec) ++
      (if prec = 0 then [] else 46 :: fracDigits (x.scaled prec) prec)

/-- The conversion `%d`. -/
def printInt (n : Int) : CStr := if n < 0 then 45 :: natDigits n.natAbs else natDigits n.natAbs

/-- The conversion `%s`: the bytes up to the terminator. -/
def printStr (s : CStr) : CStr := s.takeWhile (fun c => c != 0)

/-- The line that the `switch` of `saveCSV` writes for one record, newline
included; no `case` matches a record whose location was never assigned and
nothing is written for it. -/
def saveLine (b : Boat) : Option CStr :=
  match b.location with
  | Location.SLIP n =>
    some (printStr b.name ++ 44 :: (fmtFixed 0 b.length ++ cstr ",slip," ++ printInt n ++
      44 :: (fmtFixed 2 b.amount_owed ++ [10])))
  | Location.LAND c =>
    some (printStr b.name ++ 44 :: (fmtFixed 0 b.length ++ cstr ",land," ++ [c] ++
      44 :: (fmtFixed 2 b.amount_owed ++ [10])))
  | Location.TRAILOR t =>
    some (printStr b.name ++ 44 :: (fmtFixed 0 b.length ++ cstr ",trailor," ++ printStr t ++
      44 :: (fmtFixed 2 b.amount_owed ++ [10])))
  | Location.STORAGE n =>
    some (printStr b.name ++ 44 :: (fmtFixed 0 b.length ++ cstr ",storage," ++ printInt n ++
      44 :: (fmtFixed 2 b.amount_owed ++ [10])))
  | Location.UNSET => none

/-- The function `saveCSV` (when `fopen` succeeds): the lines written, in store order. -/
def saveCSV (s : Store) : List CStr := s.boats.filterMap saveLine

/-- A text that one `%N[^,]` conversion reads whole: not empty, at most `max`
bytes, free of commas and terminators. -/
def validField (max : Nat) (t : CStr) : Bool :=
  !t.isEmpty && decide (t.length ≤ max) && t.all (fun c => c != 44 && c != 0)

/-- A location that `saveCSV` writes and the parser reads back: a number in
the range of `int`, a bay letter or a license tag that one `%31[^,]`
conversion reads whole. -/
def validLocation : Location → Bool
  | Location.SLIP n => decide (-2147483648 ≤ n) && decide (n < 2147483648)
  | Location.LAND c => c != 44 && c != 0
  | Location.TRAILOR t => validField 31 t
  | Location.STORAGE n => decide (-2147483648 ≤ n) && decide (n < 2147483648)
  | Location.UNSET => false

/-- The line `name,length,kind,value,tail` of five comma-separated fields. -/
def csvLine (name lenText kind value tail : CStr) : CStr :=
  name ++ 44 :: (lenText ++ 44 :: (kind ++ 44 :: (value ++ 44 :: tail)))

/-! ## A reference instance of the library -/

/-- A `%f` conversion for plain decimal numbers: an optional sign, digits, and
an optional fraction, rounded to the nearest binary32 value (as glibc does).
Exponents, hexadecimal notation, `inf` and `nan` are not recognised by this
instance. -/
def decimalStrtof (s : CStr) : Option (F32 × CStr) :=
  let (neg, s1) :=
    match s with
    | 45 :: r => (true, r)
    | 43 :: r => (false, r)
    | _ => (false, s)
  let ip := s1.takeWhile isdigit
  let s2 := s1.dropWhile isdigit
  let (fp, s3) :=
    match s2 with
    | 46 :: r => (r.takeWhile isdigit, r.dropWhile isdigit)
    | _ => ([], s2)
  if ip.isEmpty && fp.isEmpty then none
  else some (F32.ofRat neg (digitsValue (ip ++ fp) 0) (10 ^ fp.length), s3)

/-- The sign step of `decimalStrtof`: the sign read and the text after it. -/
def signSplit (s : CStr) : Bool × CStr :=
  match s with
  | 45 :: r => (true, r)
  | 43 :: r => (false, r)
  | _ => (false, s)

/-- The fraction step of `decimalStrtof`: the digits after a decimal point, if
there is one, and the text after them. -/
def fracSplit (s2 : CStr) : CStr × CStr :=
  match s2 with
  | 46 :: r => (r.takeWhile isdigit, r.dropWhile isdigit)
  | _ => ([], s2)

/-- A library whose `qsort` is an insertion sort. -/
def stdLibc : Libc where
  strtof := decimalStrtof
  qsort := fun cmp l => l.insertionSort (fun a b => cmp a b ≤ 0)

/-- The merge step of glibc's `qsort` (`msort_with_tmp` in `msort.c`): while
both runs are non-empty the head of the first run is taken when
`cmp(b1, b2) <= 0`, else the head of the second; what is left of a run is
copied behind.  The fuel bounds the iterations of the `while` loop. -/
def mergeLoop (cmp : Boat → Boat → Int) : Nat → List Boat → List Boat → List Boat
  | 0, l, r => l ++ r
  | _ + 1, [], r => r
  | _ + 1, a :: l, [] => a :: l
  | fuel + 1, a :: l, b :: r =>
    if cmp a b ≤ 0 then a :: mergeLoop cmp fuel l (b :: r)
    else b :: mergeLoop cmp fuel (a :: l) r

/-- The recursion of `msort_with_tmp`: an array of at most one element is
left alone; otherwise the first `n / 2` elements and the remaining ones are
sorted separately and merged.  The fuel bounds the depth of the recursion. -/
def msortLoop (cmp : Boat → Boat → Int) : Nat → List Boat → List Boat
  | 0, l => l
  | fuel + 1, l =>
    if l.length ≤ 1 then l
    else
      mergeLoop cmp l.length (msortLoop cmp fuel (l.take (l.length / 2)))
        (msortLoop cmp fuel (l.drop (l.length / 2)))

/-- The function `qsort` as glibc performs it: a merge sort in a temporary
buffer (for the 960 bytes of `boats` the buffer is taken from the stack). -/
def glibcQsort (cmp : Boat → Boat → Int) (l : List Boat) : List Boat :=
  msortLoop cmp l.length l

/-- The C library with glibc's `qsort` and the given `%f` conversion. -/
def glibcLibc (strtof : CStr → Option (F32 × CStr)) : Libc where
  strtof := strtof
  qsort := glibcQsort

/-- The records whose name equals `k` case-insensitively. -/
def sameName (k : CStr) (x : Boat) : Bool := decide (strcasecmp x.name k = 0)

/-- The `%f` conversion reads a plain decimal number that is followed by a
comma, a newline or the end of the string as `decimalStrtof` does. -/
def Libc.ReadsDecimals (L : Libc) : Prop :=
  ∀ s v r, decimalStrtof s = some (v, r) →
    (r = [] ∨ r.head? = some 44 ∨ r.head? = some 10) → L.strtof s = some (v, r)

/-- The `%f` conversion consumes a prefix of its input: what it leaves unread
is a suffix of what it was given. -/
def Libc.ReadsPrefix (L : Libc) : Prop :=
  ∀ s v r, L.strtof s = some (v, r) → r <:+ s

/-! ## Example data -/

/-- The line of the boat "Betty": length 20, slip 3, owing 100.00. -/
def bettyLine : CStr := cstr "Betty,20,slip,3,100.00"

/-- The record that `bettyLine` parses into. -/
def betty : Boat :=
  ⟨cstr "Betty", F32.ofRat false 20 1, Location.SLIP 3, F32.ofRat false 100 1⟩

/-- The record of the line "Alpha,30,slip,4,200.00". -/
def alpha : Boat :=
  ⟨cstr "Alpha", F32.ofRat false 30 1, Location.SLIP 4, F32.ofRat false 200 1⟩

/-- A trailer boat of length 10 with the given balance. -/
def towed (owed : F32) : Boat :=
  ⟨cstr "Tow", F32.ofRat false 10 1, Location.TRAILOR (cstr "X1"), owed⟩

/-- A boat of length 3e38 (written without exponent) that owes nothing. -/
def hugeLine : CStr := cstr "Big,300000000000000000000000000000000000000,slip,1,0"

/-- The balance 0.02. -/
def twoCents : F32 := F32.ofRat false 2 100

/-- A store filled to capacity. -/
def fullStore : Store := ⟨List.replicate 120 betty⟩

/-- A file of 121 well-formed lines. -/
def longFile : List CStr := List.replicate 121 bettyLine

/-- The two lines of the load scenario, in file order. -/
def betaLine : CStr := cstr "beta,15,land,B,50.00"

def alphaLine : CStr := cstr "Alpha,30,slip,4,200.00"

/-- A line of four fields. -/
def shortLine : CStr := cstr "a,10,slip,1"

/-- A line of six fields. -/
def extraLine : CStr := cstr "a,10,slip,1,5.00,extra"

/-- The record of the line "Betty,20.7,slip,3,0.125". -/
def oddBoat : Boat :=
  ⟨cstr "Betty", F32.ofRat false 207 10, Location.SLIP 3, F32.ofRat false 125 1000⟩

/-- A trailer boat of the given length that owes 100. -/
def trailerOfLength (length : F32) : Boat :=
  ⟨cstr "Tow", length, Location.TRAILOR (cstr "X1"), F32.ofRat false 100 1⟩

/-- A second record whose name equals that of `betty` up to case. -/
def bettyTwin : Boat :=
  ⟨cstr "BETTY", F32.ofRat false 12 1, Location.LAND 66, F32.ofRat false 5 1⟩

/-- The line of a boat "Zed". -/
def zedLine : CStr := cstr "Zed,9,storage,7,1.00"

/-- The record that `zedLine` parses into. -/
def zed : Boat :=
  ⟨cstr "Zed", F32.ofRat false 9 1, Location.STORAGE 7, F32.ofRat false 1 1⟩

/-! ## Properties of the string comparison -/

theorem tolower_eq_zero (c : Nat) : tolower c = 0 ↔ c = 0 := by
  unfold tolower
  split_ifs with h
  · simp only [Nat.add_eq_zero, OfNat.ofNat_ne_zero, and_false, false_iff]; omega
  · rfl

theorem strcasecmp_self (a : CStr) : strcasecmp a a = 0 := by
  induction a with
  | nil => simp [strcasecmp]
  | cons x xs ih => simp [strcasecmp, ih]

theorem strcasecmp_swap (a b : CStr) : strcasecmp b a = -strcasecmp a b := by
  induction a generalizing b with
  | nil => cases b <;> simp [strcasecmp]
  | cons x xs ih =>
    cases b with
    | nil => simp [strcasecmp]
    | cons y ys =>
      have hx := tolower_eq_zero x
      have hy := tolower_eq_zero y
      simp only [strcasecmp]
      by_cases h : tolower x = tolower y
      · rw [if_pos h, if_pos h.symm]
        by_cases h0 : x = 0
        · have : y = 0 := by omega
          simp [h0, this]
        · have : y ≠ 0 := by omega
          simp [h0, this, ih]
      · rw [if_neg h, if_neg (Ne.symm h)]; omega

theorem strcasecmp_trans (a b c : CStr) (hab : strcasecmp a b ≤ 0) (hbc : strcasecmp b c ≤ 0) :
    strcasecmp a c ≤ 0 := by
  induction a generalizing b c with
  | nil =>
    cases c with
    | nil => simp [strcasecmp]
    | cons z zs => simp only [strcasecmp]; omega
  | cons x xs ih =>
    have hx := tolower_eq_zero x
    cases b with
    | nil =>
      simp only [strcasecmp] at hab
      cases c with
      | nil => simpa [strcasecmp] using hab
      | cons z zs =>
        have hz := tolower_eq_zero z
        simp only [strcasecmp]
        split_ifs <;> omega
    | cons y ys =>
      have hy := tolower_eq_zero y
      cases c with
      | nil =>
        simp only [strcasecmp] at hab hbc ⊢
        split_ifs at hab <;> omega
      | cons z zs =>
        have hz := tolower_eq_zero z
        simp only [strcasecmp] at hab hbc ⊢
        by_cases h1 : tolower x = tolower y
        · rw [if_pos h1] at hab
          by_cases h2 : tolower y = tolower z
          · rw [if_pos h2] at hbc
            rw [if_pos (h1.trans h2)]
            by_cases h0 : x = 0
            · simp [h0]
            · have hy0 : y ≠ 0 := by omega
              rw [if_neg h0] at hab ⊢
              rw [if_neg hy0] at hbc
              exact ih _ _ hab hbc
          · rw [if_neg h2] at hbc
            rw [if_neg (by omega)]
            omega
        · rw [if_neg h1] at hab
          by_cases h2 : tolower y = tolower z
          · rw [if_neg (by omega)]; omega
          · rw [if_neg h2] at hbc
            rw [if_neg (by omega)]; omega

/-- The reference library meets the contract of `qsort`. -/
theorem stdLibc_conforming : stdLibc.Conforming := by
  have htot : IsTotal Boat (fun a b => compareBoats a b ≤ 0) :=
    ⟨fun a b => by
      have h := strcasecmp_swap a.name b.name
      unfold compareBoats
      omega⟩
  have htr : IsTrans Boat (fun a b => compareBoats a b ≤ 0) :=
    ⟨fun a b c hab hbc => strcasecmp_trans a.name b.name c.name hab hbc⟩
  constructor
  · intro l
    exact List.perm_insertionSort _ l
  · intro l
    exact List.sorted_insertionSort _ l

/-! ## Properties of the lookup loop -/

theorem findBoatIndexFrom_none (name : CStr) (l : List Boat) (i : Nat)
    (h : ∀ b ∈ l, strcasecmp b.name name ≠ 0) : findBoatIndexFrom name l i = -1 := by
  induction l generalizing i with
  | nil => rfl
  | cons x xs ih =>
    have hx : strcasecmp x.name name ≠ 0 := h x (List.mem_cons_self _ _)
    simp only [findBoatIndexFrom, if_neg hx]
    exact ih (i + 1) (fun b hb => h b (List.mem_cons_of_mem _ hb))

theorem findBoatIndexFrom_some (name : CStr) (l : List Boat) (i : Nat)
    (h : ∃ b ∈ l, strcasecmp b.name name = 0) :
    ∃ j : Nat, findBoatIndexFrom name l i = ((i + j : Nat) : Int) ∧ j < l.length ∧
      (∃ b, l[j]? = some b ∧ strcasecmp b.name name = 0) ∧
      ∀ k c, k < j → l[k]? = some c → strcasecmp c.name name ≠ 0 := by
  induction l generalizing i with
  | nil => obtain ⟨b, hb, _⟩ := h; cases hb
  | cons x xs ih =>
    by_cases hx : strcasecmp x.name name = 0
    · refine ⟨0, ?_, by simp, ⟨x, by simp, hx⟩, ?_⟩
      · simp [findBoatIndexFrom, hx]
      · intro k c hk; omega
    · have h' : ∃ b ∈ xs, strcasecmp b.name name = 0 := by
        obtain ⟨b, hb, hm⟩ := h
        rcases List.mem_cons.mp hb with rfl | hb
        · exact absurd hm hx
        · exact ⟨b, hb, hm⟩
      obtain ⟨j, hj, hlt, ⟨b, hb, hm⟩, hmin⟩ := ih (i + 1) h'
      refine ⟨j + 1, ?_, by simpa using hlt, ⟨b, by simpa using hb, hm⟩, ?_⟩
      · simp only [findBoatIndexFrom, if_neg hx, hj]
        congr 1; omega
      · intro k c hk hc
        cases k with
        | zero =>
          simp only [List.getElem?_cons_zero, Option.some.injEq] at hc
          subst hc; exact hx
        | succ k =>
          simp only [List.getElem?_cons_succ] at hc
          exact hmin k c (by omega) hc

/-! ## Properties of the shifting loop -/

theorem shiftDown_cons (x : Boat) (l : List Boat) (i k : Nat) :
    shiftDown (x :: l) (i + 1) k = x :: shiftDown l i k := by
  induction k generalizing l i with
  | zero => rfl
  | succ k ih =>
    simp only [shiftDown, List.getElem?_cons_succ]
    cases h : l[i + 1]? with
    | none => rfl
    | some b => simp only [List.set_cons_succ]; exact ih _ _

theorem shiftDown_zero_take (l : List Boat) (k : Nat) (h : k + 1 = l.length) :
    (shiftDown l 0 k).take (l.length - 1) = l.eraseIdx 0 := by
  induction k generalizing l with
  | zero =>
    match l, h with
    | [x], _ => rfl
  | succ k ih =>
    match l, h with
    | x :: y :: ys, h =>
      have hk : k + 1 = (y :: ys).length := by simpa using h
      have := ih (y :: ys) hk
      simp only [shiftDown, List.getElem?_cons_succ, List.getElem?_cons_zero, List.set_cons_zero,
        zero_add, shiftDown_cons]
      simp only [List.length_cons, Nat.add_sub_cancel, List.take_succ_cons, List.eraseIdx_zero,
        List.tail_cons] at this ⊢
      rw [this]

theorem shiftDown_take (l : List Boat) (i k : Nat) (h : i + k + 1 = l.length) :
    (shiftDown l i k).take (l.length - 1) = l.eraseIdx i := by
  induction i generalizing l with
  | zero => exact shiftDown_zero_take l k (by omega)
  | succ i ih =>
    match l, h with
    | x :: xs, h =>
      have hk : i + k + 1 = xs.length := by simp at h; omega
      have := ih xs hk
      have hpos : 0 < xs.length := by omega
      rw [shiftDown_cons]
      simp only [List.length_cons, Nat.add_sub_cancel, List.eraseIdx_cons_succ]
      obtain ⟨n, hn⟩ : ∃ n, xs.length = n + 1 := ⟨xs.length - 1, by omega⟩
      rw [hn] at this ⊢
      simp only [Nat.add_sub_cancel] at this
      rw [List.take_succ_cons, this]

theorem sorted_eraseIdx (l : List Boat) (i : Nat) (h : Sorted l) : Sorted (l.eraseIdx i) :=
  List.Pairwise.sublist (List.eraseIdx_sublist l i) h

/-! ## Properties of binary32 arithmetic -/

namespace F32

theorem neg_toInt (x : F32) : (neg x).toInt = -x.toInt := by
  rcases x with ⟨_ | _, m, hm⟩ <;> simp [neg, toInt, units]

theorem units_zero (x : F32) (h : x.mag = 0) : x.units = 0 := by
  simp [units, h]

theorem units_mono (a b : F32) (h : a.mag ≤ b.mag) : a.units ≤ b.units := by
  unfold units
  have he : a.mag / 8388608 ≤ b.mag / 8388608 := Nat.div_le_div_right h
  have hfa : a.mag % 8388608 < 8388608 := Nat.mod_lt _ (by norm_num)
  have hfb : b.mag % 8388608 < 8388608 := Nat.mod_lt _ (by norm_num)
  simp only []
  by_cases h1 : a.mag / 8388608 = 0
  · rw [if_pos h1]
    by_cases h2 : b.mag / 8388608 = 0
    · rw [if_pos h2]; omega
    · rw [if_neg h2]
      have hp : 0 < 2 ^ (b.mag / 8388608 - 1) := Nat.pow_pos (by norm_num)
      calc a.mag % 8388608 ≤ (8388608 + b.mag % 8388608) * 1 := by omega
        _ ≤ (8388608 + b.mag % 8388608) * 2 ^ (b.mag / 8388608 - 1) :=
            Nat.mul_le_mul_left _ hp
  · have h2 : ¬ (b.mag / 8388608 = 0) := by omega
    rw [if_neg h1, if_neg h2]
    by_cases h3 : a.mag / 8388608 = b.mag / 8388608
    · rw [h3]
      exact Nat.mul_le_mul_right _ (by omega)
    · have hlt : a.mag / 8388608 - 1 + 1 ≤ b.mag / 8388608 - 1 := by omega
      have hpow : 2 ^ (a.mag / 8388608 - 1 + 1) ≤ 2 ^ (b.mag / 8388608 - 1) :=
        Nat.pow_le_pow_right (by norm_num) hlt
      rw [pow_succ] at hpow
      calc (8388608 + a.mag % 8388608) * 2 ^ (a.mag / 8388608 - 1)
          ≤ (8388608 * 2) * 2 ^ (a.mag / 8388608 - 1) := Nat.mul_le_mul_right _ (by omega)
        _ = 8388608 * (2 ^ (a.mag / 8388608 - 1) * 2) := by ring
        _ ≤ 8388608 * 2 ^ (b.mag / 8388608 - 1) := Nat.mul_le_mul_left _ hpow
        _ ≤ (8388608 + b.mag % 8388608) * 2 ^ (b.mag / 8388608 - 1) :=
            Nat.mul_le_mul_right _ (by omega)

theorem toInt_eq_of_key_eq (a b : F32) (h : a.key = b.key) : a.toInt = b.toInt := by
  rcases a with ⟨sa, ma, ha⟩
  rcases b with ⟨sb, mb, hb⟩
  cases sa <;> cases sb <;> simp only [key, toInt, units] at h ⊢
  · have : ma = mb := by simpa using h
    subst this; rfl
  · have h1 : ma = 0 := by simp at h; omega
    have h2 : mb = 0 := by simp at h; omega
    subst h1; subst h2; simp
  · have h1 : ma = 0 := by simp at h; omega
    have h2 : mb = 0 := by simp at h; omega
    subst h1; subst h2; simp
  · have : ma = mb := by simp at h; omega
    subst this; rfl

theorem toInt_le_of_key_le (a b : F32) (h : a.key ≤ b.key) : a.toInt ≤ b.toInt := by
  have hmono := units_mono a b
  have hmono' := units_mono b a
  have hza := units_zero a
  have hzb := units_zero b
  rcases a with ⟨sa, ma, ha⟩
  rcases b with ⟨sb, mb, hb⟩
  cases sa <;> cases sb <;> simp only [key, toInt] at h ⊢ <;>
    simp only [Bool.false_eq_true, if_false, if_true] at h ⊢
  · have := hmono (by simpa using h); omega
  · have h1 : ma = 0 := by omega
    have h2 : mb = 0 := by omega
    have := hza h1; have := hzb h2; omega
  · omega
  · have := hmono' (by simp only []; omega); omega

theorem roundUnits_sign (neg : Bool) (n d : Nat) : (roundUnits neg n d).sign = neg := rfl

theorem roundUnits_mag_le (neg : Bool) (n d : Nat) : (roundUnits neg n d).mag ≤ infMag :=
  Nat.min_le_right _ _

theorem ge_zero_iff (x : F32) :
    ge x (zero false) = true ↔ (x.mag ≤ infMag ∧ 0 ≤ x.key) := by
  simp [ge, le, isNaN, zero, key, infMag]

/-- A payment that is neither NaN nor greater than a non-negative balance
leaves a non-negative balance, unless both are `+inf`. -/
theorem sub_nonneg (owed amount : F32) (h0 : ge owed (zero false) = true)
    (hn : amount.isNaN = false) (hgt : gt amount owed = false)
    (hinf : ¬ (owed.isInf = true ∧ eq amount owed = true)) :
    ge (sub owed amount) (zero false) = true := by
  rw [ge_zero_iff] at h0 ⊢
  obtain ⟨hm, hk⟩ := h0
  have hle : amount.key ≤ owed.key := by
    have ho : owed.isNaN = false := by simp [isNaN]; exact hm
    simpa [gt, lt, hn, ho] using hgt
  have hnm : amount.mag ≤ infMag := by simpa [isNaN] using hn
  have hint := toInt_le_of_key_le amount owed hle
  have hnegint := neg_toInt amount
  unfold sub add
  have e1 : owed.isNaN = false := by simp [isNaN]; exact hm
  have e2 : (neg amount).isNaN = false := by simpa [isNaN, neg] using hnm
  simp only [e1, e2, Bool.false_eq_true, if_false]
  by_cases hoi : owed.isInf = true
  · have hne : ¬ (eq amount owed = true) := fun h => hinf ⟨hoi, h⟩
    have homag : owed.mag = infMag := by simpa [isInf] using hoi
    have hcond : ((neg amount).isInf && (owed.sign != (neg amount).sign)) = false := by
      rcases owed with ⟨so, mo, ho⟩
      rcases amount with ⟨sa, ma, ha⟩
      simp only [eq, isNaN, key, isInf, neg, infMag] at *
      cases so <;> cases sa <;> simp at * <;> omega
    simp only [hoi, hcond, if_true, Bool.false_eq_true, if_false]
    exact ⟨hm, hk⟩
  · have hoi' : owed.isInf = false := by simpa using hoi
    simp only [hoi', Bool.false_eq_true, if_false]
    by_cases hai : (neg amount).isInf = true
    · simp only [hai, if_true]
      rcases owed with ⟨so, mo, ho⟩
      rcases amount with ⟨sa, ma, ha⟩
      simp only [isNaN, key, isInf, neg, infMag] at *
      cases so <;> cases sa <;> simp at * <;> omega
    · have hai' : (neg amount).isInf = false := by simpa using hai
      simp only [hai', Bool.false_eq_true, if_false]
      by_cases hs : owed.toInt + (neg amount).toInt = 0
      · simp only [hs, if_true]
        cases (owed.sign && (neg amount).sign) <;> simp [zero, key, infMag]
      · simp only [hs, if_false]
        have hpos : ¬ (owed.toInt + (neg amount).toInt < 0) := by omega
        simp only [hpos, decide_False]
        refine ⟨roundUnits_mag_le _ _ _, ?_⟩
        simp [key, roundUnits_sign]

/-- A payment equal to a finite balance leaves a zero balance. -/
theorem sub_self_zero (owed amount : F32) (he : eq amount owed = true)
    (hfin : owed.isFinite = true) : (sub owed amount).isZero = true := by
  have hparts : amount.isNaN = false ∧ owed.isNaN = false ∧ amount.key = owed.key := by
    simpa [eq, and_assoc] using he
  obtain ⟨hn, ho, hk⟩ := hparts
  have hint := toInt_eq_of_key_eq amount owed hk
  have hnegint := neg_toInt amount
  have hmo : owed.mag < infMag := by simpa [isFinite] using hfin
  have hma : amount.mag < infMag := by
    rcases owed with ⟨so, mo, ho⟩
    rcases amount with ⟨sa, ma, ha⟩
    simp only [key] at hk
    cases so <;> cases sa <;> simp at hk <;> simp at hmo ⊢ <;> omega
  unfold sub add
  have e2 : (neg amount).isNaN = false := by simpa [isNaN, neg] using hn
  have e3 : owed.isInf = false := by simp [isInf]; omega
  have e4 : (neg amount).isInf = false := by simp [isInf, neg]; omega
  have hs : owed.toInt + (neg amount).toInt = 0 := by omega
  simp only [ho, e2, e3, e4, Bool.false_eq_true, if_false, hs, if_true]
  simp [zero, isZero]

theorem lt_zero_of_ge_zero (x : F32) (h : ge x (zero false) = true) :
    lt x (zero false) = false := by
  rw [ge_zero_iff] at h
  have hz : (zero false).key = 0 := rfl
  have hk := h.2
  simp only [lt, hz, Bool.and_eq_false_imp, decide_eq_false_iff_not]
  intro _ _
  omega

theorem lt_zero_of_isNaN (x : F32) (h : x.isNaN = true) : lt x (zero false) = false := by
  simp [lt, h]

/-- A payment not greater than a non-negative balance never leaves a balance
below zero: the new balance is `>= 0` or NaN. -/
theorem sub_not_lt_zero (owed amount : F32) (h0 : ge owed (zero false) = true)
    (hgt : gt amount owed = false) : lt (sub owed amount) (zero false) = false := by
  have ho : owed.isNaN = false := by
    rw [ge_zero_iff] at h0
    simp only [isNaN, decide_eq_false_iff_not]
    have := h0.1
    omega
  by_cases hn : amount.isNaN = true
  · have hneg : (neg amount).isNaN = true := by simpa [isNaN, neg] using hn
    have hres : sub owed amount = neg amount := by
      simp only [sub, add, ho, hneg, Bool.false_eq_true, if_false, if_true]
    rw [hres]
    exact lt_zero_of_isNaN _ hneg
  · have hn' : amount.isNaN = false := by simpa using hn
    by_cases hoi : owed.isInf = true
    · have hneg : (neg amount).isNaN = false := by simpa [isNaN, neg] using hn'
      simp only [sub, add, ho, hneg, hoi, Bool.false_eq_true, if_false, if_true]
      split_ifs
      · exact lt_zero_of_isNaN _ (by decide)
      · exact lt_zero_of_ge_zero _ h0
    · exact lt_zero_of_ge_zero _ (sub_nonneg owed amount h0 hn' hgt (fun h => hoi h.1))

end F32

/-! ## Lookup, insertion and removal -/

theorem findBoatIndex_none (s : Store) (name : CStr)
    (h : ∀ b ∈ s.boats, strcasecmp b.name name ≠ 0) : findBoatIndex s name = -1 :=
  findBoatIndexFrom_none name s.boats 0 h

theorem findBoatIndex_some (s : Store) (name : CStr)
    (h : ∃ b ∈ s.boats, strcasecmp b.name name = 0) :
    ∃ i : Nat, findBoatIndex s name = (i : Int) ∧ i < s.boat_count ∧
      (∃ b, s.boats[i]? = some b ∧ strcasecmp b.name name = 0) ∧
      ∀ k c, k < i → s.boats[k]? = some c → strcasecmp c.name name ≠ 0 := by
  obtain ⟨j, hj, hlt, hm, hmin⟩ := findBoatIndexFrom_some name s.boats 0 h
  exact ⟨j, by simpa [findBoatIndex] using hj, hlt, hm, hmin⟩

theorem removeBoat_found (s : Store) (name : CStr) (i : Nat)
    (hi : findBoatIndex s name = (i : Int)) (hlt : i < s.boat_count) :
    removeBoat s name = (⟨s.boats.eraseIdx i⟩, none) := by
  have hne : ¬ ((i : Int) = -1) := by omega
  unfold Store.boat_count at hlt
  simp only [removeBoat, hi, if_neg hne, Int.toNat_ofNat, Store.boat_count]
  rw [shiftDown_take s.boats i (s.boats.length - 1 - i) (by omega)]

/-- C1: when the store holds fewer than `MAX_BOATS` records and the line
parses into the boat `b`, `addBoatFromCSV` yields a store with one more
record, in which `findBoatIndex b.name` is a valid index of a record whose
name equals `b.name` case-insensitively, and which is sorted by
case-insensitive name; nothing is printed. -/
theorem addBoatFromCSV_inserts (L : Libc) (hL : L.Conforming) (s : Store) (csv : CStr) (b : Boat)
    (hlt : s.boat_count < MAX_BOATS) (hp : parseBoat L csv = some b) :
    (addBoatFromCSV L s csv).1.boat_count = s.boat_count + 1 ∧
    (∃ i : Nat, findBoatIndex (addBoatFromCSV L s csv).1 b.name = (i : Int) ∧
      i < (addBoatFromCSV L s csv).1.boat_count ∧
      ∃ r, (addBoatFromCSV L s csv).1.boats[i]? = some r ∧ strcasecmp r.name b.name = 0) ∧
    Sorted (addBoatFromCSV L s csv).1.boats ∧
    (addBoatFromCSV L s csv).2 = none := by
  have hadd : addBoatFromCSV L s csv = (sortBoats L ⟨s.boats ++ [b]⟩, none) := by
    have hge : ¬ (s.boat_count ≥ MAX_BOATS) := by omega
    simp only [addBoatFromCSV, if_neg hge, hp]
  have hperm := hL.1 (s.boats ++ [b])
  rw [hadd]
  refine ⟨?_, ?_, hL.2 _, rfl⟩
  · simp only [Store.boat_count, sortBoats, hperm.length_eq, List.length_append,
      List.length_singleton]
  · have hmem : b ∈ (sortBoats L ⟨s.boats ++ [b]⟩).boats :=
      hperm.mem_iff.mpr (by simp)
    obtain ⟨i, hi, hlt', hm, _⟩ :=
      findBoatIndex_some (sortBoats L ⟨s.boats ++ [b]⟩) b.name ⟨b, hmem, strcasecmp_self _⟩
    exact ⟨i, hi, hlt', hm⟩

/-- C2: when the store already holds `MAX_BOATS` records, `addBoatFromCSV`
prints "Marina is full." and returns the store as it was, whatever the line. -/
theorem addBoatFromCSV_full (L : Libc) (s : Store) (csv : CStr)
    (hfull : s.boat_count = MAX_BOATS) :
    addBoatFromCSV L s csv = (s, some Msg.marinaIsFull) := by
  have hge : s.boat_count ≥ MAX_BOATS := by omega
  simp only [addBoatFromCSV, if_pos hge]

/-- C3: `findBoatIndex` returns -1 exactly when no record matches the name
case-insensitively; otherwise it returns the smallest index whose record
matches.  It is a function of the store and cannot change it. -/
theorem findBoatIndex_first_match (s : Store) (name : CStr) :
    (findBoatIndex s name = -1 ↔ ∀ b ∈ s.boats, strcasecmp b.name name ≠ 0) ∧
    ((findBoatIndex s name = -1 ∧ ∀ b ∈ s.boats, strcasecmp b.name name ≠ 0) ∨
     ∃ i : Nat, findBoatIndex s name = (i : Int) ∧ i < s.boat_count ∧
       (∃ b, s.boats[i]? = some b ∧ strcasecmp b.name name = 0) ∧
       ∀ k c, k < i → s.boats[k]? = some c → strcasecmp c.name name ≠ 0) := by
  by_cases h : ∃ b ∈ s.boats, strcasecmp b.name name = 0
  · obtain ⟨i, hi, hlt, hm, hmin⟩ := findBoatIndex_some s name h
    refine ⟨⟨fun h1 => ?_, fun h2 => ?_⟩, Or.inr ⟨i, hi, hlt, hm, hmin⟩⟩
    · rw [hi] at h1; omega
    · obtain ⟨b, hb, hm'⟩ := h
      exact absurd hm' (h2 b hb)
  · have h' : ∀ b ∈ s.boats, strcasecmp b.name name ≠ 0 :=
      fun b hb hm => h ⟨b, hb, hm⟩
    exact ⟨⟨fun _ => h', fun _ => findBoatIndex_none s name h'⟩,
      Or.inl ⟨findBoatIndex_none s name h', h'⟩⟩

/-- C4: when no record matches the name, `removeBoat` prints "No boat with
that name" and returns the store as it was. -/
theorem removeBoat_absent (s : Store) (name : CStr)
    (h : ∀ b ∈ s.boats, strcasecmp b.name name ≠ 0) :
    removeBoat s name = (s, some Msg.noBoatWithThatName) := by
  simp only [removeBoat, findBoatIndex_none s name h, if_true]

/-- C5: when some record matches the name, `removeBoat` erases exactly the
record at index `findBoatIndex name` (the first match): the count drops by
one, all other records keep their relative order, and a sorted store stays
sorted; nothing is printed. -/
theorem removeBoat_present (s : Store) (name : CStr)
    (h : ∃ b ∈ s.boats, strcasecmp b.name name = 0) :
    ∃ i : Nat, findBoatIndex s name = (i : Int) ∧ i < s.boat_count ∧
      (removeBoat s name).1.boats = s.boats.eraseIdx i ∧
      (removeBoat s name).1.boat_count + 1 = s.boat_count ∧
      (Sorted s.boats → Sorted (removeBoat s name).1.boats) ∧
      (removeBoat s name).2 = none := by
  obtain ⟨i, hi, hlt, _, _⟩ := findBoatIndex_some s name h
  refine ⟨i, hi, hlt, ?_⟩
  rw [removeBoat_found s name i hi hlt]
  refine ⟨rfl, ?_, fun hs => sorted_eraseIdx _ _ hs, rfl⟩
  unfold Store.boat_count at hlt ⊢
  simp only [List.length_eraseIdx, if_pos hlt]
  omega

/-! ## Payments -/

theorem takePayment_found (s : Store) (name : CStr) (amount : F32) (i : Nat) (b : Boat)
    (hi : findBoatIndex s name = (i : Int)) (hb : s.boats[i]? = some b) :
    takePayment s name amount =
      if F32.gt amount b.amount_owed then (s, some (Msg.moreThanTheAmountOwed b.amount_owed))
      else (⟨s.boats.set i { b with amount_owed := F32.sub b.amount_owed amount }⟩, none) := by
  have hne : ¬ ((i : Int) = -1) := by omega
  simp only [takePayment, hi, if_neg hne, Int.toNat_ofNat, hb]

theorem F32.gt_false_of_le (a b : F32) (h : F32.le a b = true) : F32.gt a b = false := by
  simp only [F32.le, Bool.and_eq_true, Bool.not_eq_true', decide_eq_true_eq] at h
  simp only [F32.gt, F32.lt, h.1.1, h.1.2, Bool.not_false, Bool.true_and, decide_eq_false_iff_not]
  omega

theorem F32.gt_false_of_eq (a b : F32) (h : F32.eq a b = true) : F32.gt a b = false := by
  simp only [F32.eq, Bool.and_eq_true, Bool.not_eq_true', decide_eq_true_eq] at h
  simp only [F32.gt, F32.lt, h.1.1, h.1.2, Bool.not_false, Bool.true_and, decide_eq_false_iff_not]
  omega

theorem set_getElem?_self (l : List Boat) (i : Nat) (b c : Boat) (hb : l[i]? = some b) :
    (l.set i c)[i]? = some c := by
  have hlt : i < l.length := by
    rcases Nat.lt_or_ge i l.length with h | h
    · exact h
    · rw [List.getElem?_eq_none h] at hb; cases hb
  simp [List.getElem?_set, hlt]

/-- C6, amended: for a boat `b` found by name at index `i`, a payment greater
than `b.amount_owed` is rejected with the balance message and the store is
unchanged; a payment equal to a finite `b.amount_owed` is accepted silently
and the new balance compares equal to 0. -/
theorem takePayment_exceeds_or_settles (s : Store) (name : CStr) (amount : F32) (i : Nat)
    (b : Boat) (hi : findBoatIndex s name = (i : Int)) (hb : s.boats[i]? = some b) :
    (F32.gt amount b.amount_owed = true →
      takePayment s name amount = (s, some (Msg.moreThanTheAmountOwed b.amount_owed))) ∧
    (F32.eq amount b.amount_owed = true → b.amount_owed.isFinite = true →
      (takePayment s name amount).2 = none ∧
      ∃ r, (takePayment s name amount).1.boats[i]? = some r ∧
        F32.eq r.amount_owed (F32.zero false) = true) := by
  rw [takePayment_found s name amount i b hi hb]
  constructor
  · intro hgt
    rw [if_pos hgt]
  · intro heq hfin
    have hgt : ¬ (F32.gt amount b.amount_owed = true) := by
      rw [F32.gt_false_of_eq _ _ heq]; simp
    rw [if_neg hgt]
    refine ⟨rfl, _, set_getElem?_self _ _ _ _ hb, ?_⟩
    have hz := F32.sub_self_zero b.amount_owed amount heq hfin
    simp only [F32.isZero, decide_eq_true_eq] at hz
    simp [F32.eq, F32.isNaN, F32.key, F32.zero, F32.infMag, hz]

theorem F32.gt_false_of_isNaN (a b : F32) (h : a.isNaN = true) : F32.gt a b = false := by
  simp [F32.gt, F32.lt, h]

/-- A NaN payment turns a non-negative balance into NaN. -/
theorem F32.sub_isNaN_of_isNaN (owed amount : F32) (h0 : F32.ge owed (F32.zero false) = true)
    (hn : amount.isNaN = true) : (F32.sub owed amount).isNaN = true := by
  have ho : owed.isNaN = false := by
    rw [F32.ge_zero_iff] at h0
    simp only [F32.isNaN, decide_eq_false_iff_not]
    have := h0.1
    omega
  have hneg : (F32.neg amount).isNaN = true := by simpa [F32.isNaN, F32.neg] using hn
  have hres : F32.sub owed amount = F32.neg amount := by
    simp only [F32.sub, F32.add, ho, hneg, Bool.false_eq_true, if_false, if_true]
  rw [hres]
  exact hneg

/-- A payment of `+inf` against a balance of `+inf` leaves NaN. -/
theorem F32.sub_isNaN_of_inf (owed amount : F32) (h0 : F32.ge owed (F32.zero false) = true)
    (hoi : owed.isInf = true) (he : F32.eq amount owed = true) :
    (F32.sub owed amount).isNaN = true := by
  have hparts : amount.isNaN = false ∧ owed.isNaN = false ∧ amount.key = owed.key := by
    simpa [F32.eq, and_assoc] using he
  obtain ⟨hn, ho, hk⟩ := hparts
  rw [F32.ge_zero_iff] at h0
  have hneg : (F32.neg amount).isNaN = false := by simpa [F32.isNaN, F32.neg] using hn
  have hcond : ((F32.neg amount).isInf && (owed.sign != (F32.neg amount).sign)) = true := by
    have hk0 := h0.2
    rcases owed with ⟨so, mo, hmo⟩
    rcases amount with ⟨sa, ma, hma⟩
    simp only [F32.key, F32.isInf, F32.neg, F32.infMag, decide_eq_true_eq] at *
    cases so <;> cases sa <;> simp at * <;> omega
  simp only [F32.sub, F32.add, ho, hneg, hoi, hcond, Bool.false_eq_true, if_false, if_true]
  decide

/-- C7, amended: for a boat `b` found by name at index `i` whose balance is
`>= 0`, no payment, accepted or rejected, leaves a balance below zero; the
balance afterwards is `>= 0` whenever the amount is not NaN and balance and
amount are not both `+inf`, and it is NaN in those two cases: when the
amount is NaN, and when balance and amount are both `+inf`. -/
theorem takePayment_balance_nonneg (s : Store) (name : CStr) (amount : F32) (i : Nat)
    (b : Boat) (hi : findBoatIndex s name = (i : Int)) (hb : s.boats[i]? = some b)
    (h0 : F32.ge b.amount_owed (F32.zero false) = true) :
    ∃ r, (takePayment s name amount).1.boats[i]? = some r ∧
      F32.lt r.amount_owed (F32.zero false) = false ∧
      (amount.isNaN = false →
        ¬ (b.amount_owed.isInf = true ∧ F32.eq amount b.amount_owed = true) →
        F32.ge r.amount_owed (F32.zero false) = true) ∧
      (amount.isNaN = true → r.amount_owed.isNaN = true) ∧
      (b.amount_owed.isInf = true ∧ F32.eq amount b.amount_owed = true →
        r.amount_owed.isNaN = true) := by
  rw [takePayment_found s name amount i b hi hb]
  by_cases hgt : F32.gt amount b.amount_owed = true
  · rw [if_pos hgt]
    refine ⟨b, hb, F32.lt_zero_of_ge_zero _ h0, fun _ _ => h0, ?_, ?_⟩
    · intro hn
      rw [F32.gt_false_of_isNaN _ _ hn] at hgt
      exact absurd hgt (by simp)
    · intro h
      rw [F32.gt_false_of_eq _ _ h.2] at hgt
      exact absurd hgt (by simp)
  · rw [if_neg hgt]
    have hgt' : F32.gt amount b.amount_owed = false := by simpa using hgt
    exact ⟨_, set_getElem?_self _ _ _ _ hb, F32.sub_not_lt_zero _ _ h0 hgt',
      fun hn hinf => F32.sub_nonneg b.amount_owed amount h0 hn hgt' hinf,
      fun hn => F32.sub_isNaN_of_isNaN _ _ h0 hn,
      fun h => F32.sub_isNaN_of_inf _ _ h0 h.1 h.2⟩

/-- C8: a payment `amount <= b.amount_owed` to the boat `b` found by name at
index `i` replaces that record by the same record with balance
`b.amount_owed - amount` and prints nothing: the count is the same, every
other slot holds the record it held before, and name, length and location of
the record at `i` are those of `b`.  When no record matches, the store is
returned as it was, with the message "No boat with that name". -/
theorem takePayment_frame (s : Store) (name : CStr) (amount : F32) :
    ((∀ b ∈ s.boats, strcasecmp b.name name ≠ 0) →
      takePayment s name amount = (s, some Msg.noBoatWithThatName)) ∧
    (∀ (i : Nat) (b : Boat), findBoatIndex s name = (i : Int) → s.boats[i]? = some b →
      F32.le amount b.amount_owed = true →
      takePayment s name amount =
        (⟨s.boats.set i { b with amount_owed := F32.sub b.amount_owed amount }⟩, none) ∧
      (takePayment s name amount).1.boat_count = s.boat_count ∧
      (∀ j, j ≠ i → (takePayment s name amount).1.boats[j]? = s.boats[j]?) ∧
      (takePayment s name amount).1.boats[i]? =
        some ⟨b.name, b.length, b.location, F32.sub b.amount_owed amount⟩) := by
  constructor
  · intro h
    simp only [takePayment, findBoatIndex_none s name h, if_true]
  · intro i b hi hb hle
    have hgt : ¬ (F32.gt amount b.amount_owed = true) := by
      rw [F32.gt_false_of_le _ _ hle]; simp
    rw [takePayment_found s name amount i b hi hb, if_neg hgt]
    refine ⟨rfl, ?_, ?_, ?_⟩
    · simp [Store.boat_count]
    · intro j hj
      simp only [List.getElem?_set]
      rw [if_neg (Ne.symm hj)]
    · exact set_getElem?_self _ _ _ _ hb

/-! ## Monthly charge -/

/-- C9, amended: `chargeMonthly` keeps the count and replaces the record in
every slot by the same record with balance
`amount_owed + length * rate(kind)`, sum and product being binary32
operations and the rates the binary32 values nearest to 12.5 (slip), 14.0
(land), 25.0 (trailer) and 11.2 (storage); name, length and location are
untouched.  Two calls apply the charge twice in succession. -/
theorem chargeMonthly_charges (s : Store) :
    (chargeMonthly s).boat_count = s.boat_count ∧
    (∀ (i : Nat) (b : Boat), s.boats[i]? = some b →
      (chargeMonthly s).boats[i]? =
        some ⟨b.name, b.length, b.location,
          F32.add b.amount_owed (F32.mul b.length (rate b.location))⟩ ∧
      (chargeMonthly (chargeMonthly s)).boats[i]? =
        some ⟨b.name, b.length, b.location,
          F32.add (F32.add b.amount_owed (F32.mul b.length (rate b.location)))
            (F32.mul b.length (rate b.location))⟩) ∧
    (∀ n, rate (Location.SLIP n) = F32.ofRat false 125 10) ∧
    (∀ c, rate (Location.LAND c) = F32.ofRat false 14 1) ∧
    (∀ t, rate (Location.TRAILOR t) = F32.ofRat false 25 1) ∧
    (∀ n, rate (Location.STORAGE n) = F32.ofRat false 112 10) := by
  refine ⟨by simp [chargeMonthly, Store.boat_count], ?_, fun _ => rfl, fun _ => rfl,
    fun _ => rfl, fun _ => rfl⟩
  intro i b hb
  simp only [chargeMonthly, List.getElem?_map, hb, Option.map_some', chargeBoat, List.map_map,
    Function.comp, and_self]

/-! ## Capacity -/

theorem foldl_loadLine_replicate (L : Libc) (line : CStr) (b : Boat)
    (hp : parseBoat L line = some b) (n : Nat) (l : List Boat) :
    (List.replicate n line).foldl (loadLine L) l = l ++ List.replicate n b := by
  induction n generalizing l with
  | zero => simp
  | succ n ih =>
    simp only [List.replicate_succ, List.foldl_cons]
    rw [ih]
    simp [loadLine, hp]

theorem takePayment_boat_count (s : Store) (name : CStr) (amount : F32) :
    (takePayment s name amount).1.boat_count = s.boat_count := by
  unfold takePayment
  simp only []
  split_ifs with h
  · rfl
  · split
    · rfl
    · split_ifs
      · rfl
      · simp [Store.boat_count]

theorem removeBoat_boat_count_le (s : Store) (name : CStr) :
    (removeBoat s name).1.boat_count ≤ s.boat_count := by
  by_cases h : ∃ b ∈ s.boats, strcasecmp b.name name = 0
  · obtain ⟨i, hi, hlt, _, _⟩ := findBoatIndex_some s name h
    rw [removeBoat_found s name i hi hlt]
    simp only [Store.boat_count]
    exact (List.eraseIdx_sublist _ _).length_le
  · have h' : ∀ b ∈ s.boats, strcasecmp b.name name ≠ 0 := fun b hb hm => h ⟨b, hb, hm⟩
    simp only [removeBoat, findBoatIndex_none s name h', if_true]
    exact Nat.le_refl _

/-- The commands of the menu keep a store within capacity. -/
theorem step_boat_count_le (L : Libc) (hL : L.Conforming) (s : Store) (c : Cmd)
    (h : s.boat_count ≤ MAX_BOATS) : (step L s c).boat_count ≤ MAX_BOATS := by
  cases c with
  | inventory => exact h
  | add csv =>
    simp only [step, addBoatFromCSV]
    split_ifs with hfull
    · exact h
    · cases hp : parseBoat L csv with
      | none => exact h
      | some b =>
        simp only [Store.boat_count, sortBoats, (hL.1 (s.boats ++ [b])).length_eq,
          List.length_append, List.length_singleton]
        unfold Store.boat_count at hfull
        omega
  | remove name => exact Nat.le_trans (removeBoat_boat_count_le s name) h
  | payment name amount =>
    simp only [step]
    split_ifs
    · exact h
    · rw [takePayment_boat_count]; exact h
  | month => simpa [step, chargeMonthly, Store.boat_count] using h

/-- C10, at the failing input: `loadCSV` on a file of 121 well-formed lines
leaves 121 records in the store, one more than `MAX_BOATS`. -/
theorem loadCSV_exceeds_capacity :
    (loadCSV stdLibc Store.empty (some longFile)).1.boat_count = 121 ∧
    MAX_BOATS < (loadCSV stdLibc Store.empty (some longFile)).1.boat_count := by
  have hp : parseBoat stdLibc bettyLine = some betty := by decide
  have hlen : (loadCSV stdLibc Store.empty (some longFile)).1.boat_count = 121 := by
    simp only [loadCSV, sortBoats, Store.boat_count, longFile, Store.empty,
      foldl_loadLine_replicate stdLibc bettyLine betty hp,
      (stdLibc_conforming.1 _).length_eq, List.nil_append, List.length_replicate]
  rw [hlen]
  exact ⟨rfl, by decide⟩

/-! ## Concrete instances -/

theorem addBoatFromCSV_inserts_witness :
    stdLibc.Conforming ∧ (⟨[alpha]⟩ : Store).boat_count < MAX_BOATS ∧
    parseBoat stdLibc bettyLine = some betty ∧
    (addBoatFromCSV stdLibc ⟨[alpha]⟩ bettyLine).1.boat_count = (⟨[alpha]⟩ : Store).boat_count + 1 ∧
    (∃ i : Nat, findBoatIndex (addBoatFromCSV stdLibc ⟨[alpha]⟩ bettyLine).1 betty.name = (i : Int) ∧
      i < (addBoatFromCSV stdLibc ⟨[alpha]⟩ bettyLine).1.boat_count ∧
      ∃ r, (addBoatFromCSV stdLibc ⟨[alpha]⟩ bettyLine).1.boats[i]? = some r ∧
        strcasecmp r.name betty.name = 0) ∧
    Sorted (addBoatFromCSV stdLibc ⟨[alpha]⟩ bettyLine).1.boats ∧
    (addBoatFromCSV stdLibc ⟨[alpha]⟩ bettyLine).2 = none :=
  ⟨stdLibc_conforming, by decide, by decide,
    addBoatFromCSV_inserts stdLibc stdLibc_conforming ⟨[alpha]⟩ bettyLine betty
      (by decide) (by decide)⟩

theorem addBoatFromCSV_full_witness :
    fullStore.boat_count = MAX_BOATS ∧
    addBoatFromCSV stdLibc fullStore bettyLine = (fullStore, some Msg.marinaIsFull) :=
  ⟨by decide, addBoatFromCSV_full stdLibc fullStore bettyLine (by decide)⟩

theorem removeBoat_absent_witness :
    (∀ b ∈ (⟨[alpha, betty]⟩ : Store).boats, strcasecmp b.name (cstr "Gamma") ≠ 0) ∧
    removeBoat ⟨[alpha, betty]⟩ (cstr "Gamma") = (⟨[alpha, betty]⟩, some Msg.noBoatWithThatName) :=
  ⟨by decide, removeBoat_absent ⟨[alpha, betty]⟩ (cstr "Gamma") (by decide)⟩

theorem removeBoat_present_witness :
    (∃ b ∈ (⟨[alpha, betty]⟩ : Store).boats, strcasecmp b.name (cstr "ALPHA") = 0) ∧
    ∃ i : Nat, findBoatIndex ⟨[alpha, betty]⟩ (cstr "ALPHA") = (i : Int) ∧
      i < (⟨[alpha, betty]⟩ : Store).boat_count ∧
      (removeBoat ⟨[alpha, betty]⟩ (cstr "ALPHA")).1.boats =
        (⟨[alpha, betty]⟩ : Store).boats.eraseIdx i ∧
      (removeBoat ⟨[alpha, betty]⟩ (cstr "ALPHA")).1.boat_count + 1 =
        (⟨[alpha, betty]⟩ : Store).boat_count ∧
      (Sorted (⟨[alpha, betty]⟩ : Store).boats →
        Sorted (removeBoat ⟨[alpha, betty]⟩ (cstr "ALPHA")).1.boats) ∧
      (removeBoat ⟨[alpha, betty]⟩ (cstr "ALPHA")).2 = none :=
  ⟨by decide, removeBoat_present ⟨[alpha, betty]⟩ (cstr "ALPHA") (by decide)⟩

/-- The scenario of the specification: Betty owes 100.00; a payment of 150 is
rejected and the balance stays 100.00; a payment of 100 is accepted and the
balance becomes 0. -/
theorem takePayment_exceeds_or_settles_witness :
    findBoatIndex ⟨[betty]⟩ (cstr "Betty") = ((0 : Nat) : Int) ∧
    (⟨[betty]⟩ : Store).boats[0]? = some betty ∧
    F32.gt (F32.ofRat false 150 1) betty.amount_owed = true ∧
    F32.eq (F32.ofRat false 100 1) betty.amount_owed = true ∧
    betty.amount_owed.isFinite = true ∧
    takePayment ⟨[betty]⟩ (cstr "Betty") (F32.ofRat false 150 1) =
      (⟨[betty]⟩, some (Msg.moreThanTheAmountOwed betty.amount_owed)) ∧
    ((takePayment ⟨[betty]⟩ (cstr "Betty") (F32.ofRat false 100 1)).2 = none ∧
      ∃ r, (takePayment ⟨[betty]⟩ (cstr "Betty") (F32.ofRat false 100 1)).1.boats[0]? = some r ∧
        F32.eq r.amount_owed (F32.zero false) = true) :=
  ⟨by decide, by decide, by decide, by decide, by decide,
    (takePayment_exceeds_or_settles ⟨[betty]⟩ (cstr "Betty") (F32.ofRat false 150 1) 0 betty
      (by decide) (by decide)).1 (by decide),
    (takePayment_exceeds_or_settles ⟨[betty]⟩ (cstr "Betty") (F32.ofRat false 100 1) 0 betty
      (by decide) (by decide)).2 (by decide) (by decide)⟩

/-- C6 as stated fails for an infinite balance.  The line `hugeLine` uses
plain decimal notation; one monthly charge takes the balance of its boat to
`+inf`; a payment of `+inf` then compares equal to the balance, is accepted
without a message, and leaves a NaN balance, which does not compare equal
to 0. -/
theorem takePayment_equal_infinite_counterexample :
    (session stdLibc (some [hugeLine]) [Cmd.month]).boats.map (fun b => b.amount_owed) =
      [F32.inf false] ∧
    findBoatIndex (session stdLibc (some [hugeLine]) [Cmd.month]) (cstr "Big") =
      ((0 : Nat) : Int) ∧
    F32.eq (F32.inf false) (F32.inf false) = true ∧
    (takePayment (session stdLibc (some [hugeLine]) [Cmd.month]) (cstr "Big")
      (F32.inf false)).2 = none ∧
    (takePayment (session stdLibc (some [hugeLine]) [Cmd.month]) (cstr "Big")
      (F32.inf false)).1.boats.map
        (fun b => (b.amount_owed.isNaN, F32.eq b.amount_owed (F32.zero false))) =
      [(true, false)] := by
  decide

theorem takePayment_balance_nonneg_witness :
    findBoatIndex ⟨[betty]⟩ (cstr "Betty") = ((0 : Nat) : Int) ∧
    (⟨[betty]⟩ : Store).boats[0]? = some betty ∧
    F32.ge betty.amount_owed (F32.zero false) = true ∧
    ∃ r, (takePayment ⟨[betty]⟩ (cstr "Betty") (F32.ofRat false 6025 100)).1.boats[0]? = some r ∧
      F32.lt r.amount_owed (F32.zero false) = false ∧
      ((F32.ofRat false 6025 100).isNaN = false →
        ¬ (betty.amount_owed.isInf = true ∧
            F32.eq (F32.ofRat false 6025 100) betty.amount_owed = true) →
        F32.ge r.amount_owed (F32.zero false) = true) ∧
      ((F32.ofRat false 6025 100).isNaN = true → r.amount_owed.isNaN = true) ∧
      (betty.amount_owed.isInf = true ∧
          F32.eq (F32.ofRat false 6025 100) betty.amount_owed = true →
        r.amount_owed.isNaN = true) :=
  ⟨by decide, by decide, by decide,
    takePayment_balance_nonneg ⟨[betty]⟩ (cstr "Betty") (F32.ofRat false 6025 100) 0 betty
      (by decide) (by decide) (by decide)⟩

/-- C7 as stated fails for a NaN payment: Betty owes 100.00, which is `>= 0`;
a NaN amount is not greater than the balance, so it is subtracted, and the
resulting balance is NaN, which is not `>= 0`. -/
theorem takePayment_nan_counterexample :
    findBoatIndex ⟨[betty]⟩ (cstr "Betty") = ((0 : Nat) : Int) ∧
    F32.ge betty.amount_owed (F32.zero false) = true ∧
    (takePayment ⟨[betty]⟩ (cstr "Betty") F32.nan).2 = none ∧
    (takePayment ⟨[betty]⟩ (cstr "Betty") F32.nan).1.boats.map
      (fun b => (b.name, b.amount_owed.isNaN, F32.ge b.amount_owed (F32.zero false))) =
      [(cstr "Betty", true, false)] := by
  decide

theorem takePayment_frame_witness :
    ((∀ b ∈ (⟨[alpha, betty]⟩ : Store).boats, strcasecmp b.name (cstr "Gamma") ≠ 0) ∧
      takePayment ⟨[alpha, betty]⟩ (cstr "Gamma") (F32.ofRat false 25 1) =
        (⟨[alpha, betty]⟩, some Msg.noBoatWithThatName)) ∧
    (findBoatIndex ⟨[alpha, betty]⟩ (cstr "betty") = ((1 : Nat) : Int) ∧
      (⟨[alpha, betty]⟩ : Store).boats[1]? = some betty ∧
      F32.le (F32.ofRat false 25 1) betty.amount_owed = true ∧
      takePayment ⟨[alpha, betty]⟩ (cstr "betty") (F32.ofRat false 25 1) =
        (⟨[alpha, { betty with amount_owed := F32.ofRat false 75 1 }]⟩, none)) :=
  ⟨⟨by decide,
    (takePayment_frame ⟨[alpha, betty]⟩ (cstr "Gamma") (F32.ofRat false 25 1)).1 (by decide)⟩,
   by decide, by decide, by decide,
    ((takePayment_frame ⟨[alpha, betty]⟩ (cstr "betty") (F32.ofRat false 25 1)).2 1 betty
      (by decide) (by decide) (by decide)).1.trans (by decide)⟩

/-- The scenario of the specification: one monthly charge takes a trailer
boat of length 10 from a balance of 0 to 250. -/
theorem chargeMonthly_charges_witness :
    (⟨[towed (F32.zero false)]⟩ : Store).boats[0]? = some (towed (F32.zero false)) ∧
    (chargeMonthly ⟨[towed (F32.zero false)]⟩).boats[0]? = some (towed (F32.ofRat false 250 1)) :=
  ⟨by decide,
    (((chargeMonthly_charges ⟨[towed (F32.zero false)]⟩).2.1 0 (towed (F32.zero false))
      (by decide)).1).trans (by decide)⟩

/-- C9 as stated fails on its last clause: for a trailer boat of length 10
owing 0.02 the charge is 250; two calls leave the balance with bits
0x43FA0290, whereas the balance plus twice the charge has bits 0x43FA028F. -/
theorem chargeMonthly_twice_counterexample :
    F32.mul (towed twoCents).length (rate (towed twoCents).location) = F32.ofRat false 250 1 ∧
    (chargeMonthly (chargeMonthly ⟨[towed twoCents]⟩)).boats.map (fun b => b.amount_owed) =
      [⟨false, 1140458128, by omega⟩] ∧
    F32.add twoCents (F32.mul (F32.ofRat false 2 1)
        (F32.mul (towed twoCents).length (rate (towed twoCents).location))) =
      ⟨false, 1140458127, by omega⟩ := by
  decide

/-! ## Loading and the order of the store -/

theorem foldl_loadLine (L : Libc) (lines : List CStr) (l : List Boat) :
    lines.foldl (loadLine L) l = l ++ lines.filterMap (parseBoat L) := by
  induction lines generalizing l with
  | nil => simp
  | cons x xs ih =>
    simp only [List.foldl_cons, ih, loadLine]
    cases h : parseBoat L x with
    | none => simp [List.filterMap_cons, h]
    | some b => simp [List.filterMap_cons, h]

theorem loadCSV_boats (L : Libc) (lines : List CStr) :
    (loadCSV L Store.empty (some lines)).1.boats =
      L.qsort compareBoats (lines.filterMap (parseBoat L)) := by
  simp [loadCSV, sortBoats, Store.empty, foldl_loadLine]

theorem names_set (l : List Boat) (i : Nat) (b c : Boat) (hb : l[i]? = some b)
    (hn : c.name = b.name) : (l.set i c).map (fun x => x.name) = l.map (fun x => x.name) := by
  induction l generalizing i with
  | nil => simp
  | cons x xs ih =>
    cases i with
    | zero =>
      simp only [List.getElem?_cons_zero, Option.some.injEq] at hb
      subst hb
      simp [hn]
    | succ i =>
      simp only [List.getElem?_cons_succ] at hb
      simp [ih i hb]

theorem sorted_iff_names (l : List Boat) :
    Sorted l ↔ (l.map (fun x => x.name)).Pairwise (fun a b => strcasecmp a b ≤ 0) := by
  simp [Sorted, compareBoats, List.pairwise_map]

theorem takePayment_sorted (s : Store) (name : CStr) (amount : F32) (h : Sorted s.boats) :
    Sorted (takePayment s name amount).1.boats := by
  unfold takePayment
  simp only []
  split_ifs with h1
  · exact h
  · split
    · exact h
    · rename_i b hb
      split_ifs
      · exact h
      · rw [sorted_iff_names] at h ⊢
        simp only []
        rw [names_set _ _ b ⟨b.name, b.length, b.location, b.amount_owed.sub amount⟩ hb rfl]
        exact h

theorem chargeMonthly_sorted (s : Store) (h : Sorted s.boats) :
    Sorted (chargeMonthly s).boats := by
  rw [sorted_iff_names] at h ⊢
  simpa [chargeMonthly, List.map_map, Function.comp, chargeBoat] using h

theorem removeBoat_sorted (s : Store) (name : CStr) (h : Sorted s.boats) :
    Sorted (removeBoat s name).1.boats := by
  by_cases hm : ∃ b ∈ s.boats, strcasecmp b.name name = 0
  · obtain ⟨i, hi, hlt, _, _⟩ := findBoatIndex_some s name hm
    rw [removeBoat_found s name i hi hlt]
    exact sorted_eraseIdx _ _ h
  · have h' : ∀ b ∈ s.boats, strcasecmp b.name name ≠ 0 := fun b hb hc => hm ⟨b, hb, hc⟩
    simp only [removeBoat, findBoatIndex_none s name h', if_true]
    exact h

theorem addBoatFromCSV_sorted (L : Libc) (hL : L.Conforming) (s : Store) (csv : CStr)
    (h : Sorted s.boats) : Sorted (addBoatFromCSV L s csv).1.boats := by
  unfold addBoatFromCSV
  split_ifs
  · exact h
  · cases parseBoat L csv with
    | none => exact h
    | some b => exact hL.2 _

theorem step_sorted (L : Libc) (hL : L.Conforming) (s : Store) (c : Cmd) (h : Sorted s.boats) :
    Sorted (step L s c).boats := by
  cases c with
  | inventory => exact h
  | add csv => exact addBoatFromCSV_sorted L hL s csv h
  | remove name => exact removeBoat_sorted s name h
  | payment name amount =>
    simp only [step]
    split_ifs
    · exact h
    · exact takePayment_sorted s name amount h
  | month => exact chargeMonthly_sorted s h

theorem foldl_step_sorted (L : Libc) (hL : L.Conforming) (cmds : List Cmd) (s : Store)
    (h : Sorted s.boats) : Sorted (cmds.foldl (step L) s).boats := by
  induction cmds generalizing s with
  | nil => exact h
  | cons c cs ih => exact ih _ (step_sorted L hL s c h)

theorem loadCSV_sorted (L : Libc) (hL : L.Conforming) (file : Option (List CStr)) :
    Sorted (loadCSV L Store.empty file).1.boats := by
  cases file with
  | none => exact List.Pairwise.nil
  | some lines => exact hL.2 _

theorem foldl_step_boat_count_le (L : Libc) (hL : L.Conforming) (cmds : List Cmd) (s : Store)
    (h : s.boat_count ≤ MAX_BOATS) : (cmds.foldl (step L) s).boat_count ≤ MAX_BOATS := by
  induction cmds generalizing s with
  | nil => exact h
  | cons c cs ih => exact ih _ (step_boat_count_le L hL s c h)

/-- Within capacity the order invariant holds: when `loadCSV` (on a file, or
a failed `fopen`) has stored at most `MAX_BOATS` records, then after any
sequence of menu commands the store still holds at most `MAX_BOATS` records
and is in case-insensitive ascending name order: for all indices `i < j` the
name at `i` compares `<=` the name at `j`. -/
theorem session_sorted_within_capacity (L : Libc) (hL : L.Conforming)
    (file : Option (List CStr)) (cmds : List Cmd)
    (hfit : (loadCSV L Store.empty file).1.boat_count ≤ MAX_BOATS) :
    (session L file cmds).boat_count ≤ MAX_BOATS ∧
    Sorted (session L file cmds).boats ∧
    ∀ (i j : Nat) (x y : Boat), i < j → (session L file cmds).boats[i]? = some x →
      (session L file cmds).boats[j]? = some y → strcasecmp x.name y.name ≤ 0 := by
  have hs : Sorted (session L file cmds).boats :=
    foldl_step_sorted L hL cmds _ (loadCSV_sorted L hL file)
  refine ⟨foldl_step_boat_count_le L hL cmds _ hfit, hs, ?_⟩
  intro i j x y hij hx hy
  have hj : j < (session L file cmds).boats.length := by
    rcases Nat.lt_or_ge j (session L file cmds).boats.length with h | h
    · exact h
    · rw [List.getElem?_eq_none h] at hy; cases hy
  have hi : i < (session L file cmds).boats.length := by omega
  rw [List.getElem?_eq_getElem hi] at hx
  rw [List.getElem?_eq_getElem hj] at hy
  cases hx; cases hy
  exact (List.pairwise_iff_getElem.mp hs) i j hi hj hij

/-- Within capacity the load keeps every parsed record: when at most
`MAX_BOATS` of the lines parse, `loadCSV` from the empty store leaves, up to
order, exactly the records parsed from the lines that parse, one per such
line, and at most `MAX_BOATS` of them; a line that does not parse adds
nothing and leaves the records of all other lines as they are. -/
theorem loadCSV_records_within_capacity (L : Libc) (hL : L.Conforming) (lines : List CStr)
    (hfit : (lines.filterMap (parseBoat L)).length ≤ MAX_BOATS) :
    (loadCSV L Store.empty (some lines)).1.boats.Perm (lines.filterMap (parseBoat L)) ∧
    (loadCSV L Store.empty (some lines)).1.boat_count ≤ MAX_BOATS ∧
    (loadCSV L Store.empty (some lines)).1.boat_count =
      (lines.filter (fun l => (parseBoat L l).isSome)).length ∧
    ∀ (pre post : List CStr) (line : CStr), lines = pre ++ line :: post →
      parseBoat L line = none →
      (loadCSV L Store.empty (some lines)).1.boats.Perm
        (loadCSV L Store.empty (some (pre ++ post))).1.boats := by
  rw [loadCSV_boats]
  refine ⟨hL.1 _, ?_, ?_, ?_⟩
  · simp only [Store.boat_count, loadCSV_boats, (hL.1 _).length_eq]
    exact hfit
  · simp only [Store.boat_count, loadCSV_boats, (hL.1 _).length_eq]
    clear hfit
    induction lines with
    | nil => rfl
    | cons x xs ih =>
      cases h : parseBoat L x with
      | none => simp [List.filterMap_cons, List.filter_cons, h, ih]
      | some b => simp [List.filterMap_cons, List.filter_cons, h, ih]
  · intro pre post line hl hnone
    rw [loadCSV_boats]
    refine (hL.1 _).trans (List.Perm.trans ?_ (hL.1 _).symm)
    rw [hl]
    simp [List.filterMap_append, List.filterMap_cons, hnone]

theorem takeWhile_field (t r : CStr) (h : t.all (fun c => c != 44 && c != 0) = true) :
    (t ++ 44 :: r).takeWhile (fun c => c != 44 && c != 0) = t := by
  induction t with
  | nil => simp
  | cons x xs ih =>
    simp only [List.all_cons, Bool.and_eq_true] at h
    simp [List.takeWhile_cons, h.1.1, h.1.2, ih h.2]

theorem scanField_valid (n : Nat) (t r : CStr) (h : validField n t = true) :
    scanField n (t ++ 44 :: r) = some (t, 44 :: r) := by
  simp only [validField, Bool.and_eq_true, Bool.not_eq_true', decide_eq_true_eq] at h
  obtain ⟨⟨hne, hlen⟩, hall⟩ := h
  simp only [scanField, takeWhile_field t r hall, List.take_of_length_le hlen, hne,
    Bool.false_eq_true, if_false, List.drop_left]

/-- The record built from a line of five fields whose two numbers the `%f`
conversion reads. -/
theorem parseBoat_fields (L : Libc) (name lenText kind value tail r : CStr) (len owed : F32)
    (hname : validField 127 name = true) (hkind : validField 15 kind = true)
    (hvalue : validField 31 value = true)
    (hlen : scanFloat L (lenText ++ 44 :: (kind ++ 44 :: (value ++ 44 :: tail))) =
      some (len, 44 :: (kind ++ 44 :: (value ++ 44 :: tail))))
    (howed : scanFloat L tail = some (owed, r)) :
    parseBoat L (name ++ 44 :: (lenText ++ 44 :: (kind ++ 44 :: (value ++ 44 :: tail)))) =
      some ⟨name, len, locationOf kind value, owed⟩ := by
  simp only [parseBoat, sscanf, scanField_valid _ _ _ hname, scanComma, hlen,
    scanField_valid _ _ _ hkind, scanField_valid _ _ _ hvalue, howed]

theorem scanField_suffix (n : Nat) (s tok r : CStr) (h : scanField n s = some (tok, r)) :
    r <:+ s := by
  simp only [scanField] at h
  split_ifs at h
  simp only [Option.some.injEq, Prod.mk.injEq] at h
  rw [← h.2]
  exact List.drop_suffix _ _

theorem scanComma_count (s r : CStr) (h : scanComma s = some r) :
    s.count 44 = r.count 44 + 1 := by
  unfold scanComma at h
  split at h
  · simp only [Option.some.injEq] at h
    subst h
    simp
  · cases h

theorem scanFloat_suffix (L : Libc) (hpre : L.ReadsPrefix) (s r : CStr) (v : F32)
    (h : scanFloat L s = some (v, r)) : r <:+ s :=
  (hpre _ v r h).trans (List.dropWhile_suffix _)

theorem count_le_of_suffix (r s : CStr) (h : r <:+ s) : r.count 44 ≤ s.count 44 :=
  h.sublist.count_le 44

/-- A line that `sscanf` converts in full holds at least four commas. -/
theorem sscanf_commas (L : Libc) (hpre : L.ReadsPrefix) (line : CStr)
    (x : CStr × F32 × CStr × CStr × F32) (h : sscanf L line = some x) :
    4 ≤ line.count 44 := by
  unfold sscanf at h
  cases h1 : scanField 127 line with
  | none => simp [h1] at h
  | some p1 =>
    obtain ⟨name, s1⟩ := p1
    simp only [h1] at h
    cases h2 : scanComma s1 with
    | none => simp [h2] at h
    | some s2 =>
      simp only [h2] at h
      cases h3 : scanFloat L s2 with
      | none => simp [h3] at h
      | some p3 =>
        obtain ⟨len, s3⟩ := p3
        simp only [h3] at h
        cases h4 : scanComma s3 with
        | none => simp [h4] at h
        | some s4 =>
          simp only [h4] at h
          cases h5 : scanField 15 s4 with
          | none => simp [h5] at h
          | some p5 =>
            obtain ⟨type, s5⟩ := p5
            simp only [h5] at h
            cases h6 : scanComma s5 with
            | none => simp [h6] at h
            | some s6 =>
              simp only [h6] at h
              cases h7 : scanField 31 s6 with
              | none => simp [h7] at h
              | some p7 =>
                obtain ⟨extra, s7⟩ := p7
                simp only [h7] at h
                cases h8 : scanComma s7 with
                | none => simp [h8] at h
                | some s8 =>
                  have c1 := count_le_of_suffix _ _ (scanField_suffix _ _ _ _ h1)
                  have c2 := scanComma_count _ _ h2
                  have c3 := count_le_of_suffix _ _ (scanFloat_suffix L hpre _ _ _ h3)
                  have c4 := scanComma_count _ _ h4
                  have c5 := count_le_of_suffix _ _ (scanField_suffix _ _ _ _ h5)
                  have c6 := scanComma_count _ _ h6
                  have c7 := count_le_of_suffix _ _ (scanField_suffix _ _ _ _ h7)
                  have c8 := scanComma_count _ _ h8
                  omega

theorem parseBoat_few_commas (L : Libc) (hpre : L.ReadsPrefix) (line : CStr)
    (h : line.count 44 < 4) : parseBoat L line = none := by
  unfold parseBoat
  cases hs : sscanf L line with
  | none => rfl
  | some x =>
    have := sscanf_commas L hpre line x hs
    omega

theorem decimalStrtof_eq (s : CStr) :
    decimalStrtof s =
      if ((signSplit s).2.takeWhile isdigit).isEmpty &&
          (fracSplit ((signSplit s).2.dropWhile isdigit)).1.isEmpty then none
      else some (F32.ofRat (signSplit s).1
          (digitsValue ((signSplit s).2.takeWhile isdigit ++
            (fracSplit ((signSplit s).2.dropWhile isdigit)).1) 0)
          (10 ^ (fracSplit ((signSplit s).2.dropWhile isdigit)).1.length),
        (fracSplit ((signSplit s).2.dropWhile isdigit)).2) := rfl

theorem signSplit_suffix (s : CStr) : (signSplit s).2 <:+ s := by
  unfold signSplit
  split
  · exact List.suffix_cons _ _
  · exact List.suffix_cons _ _
  · exact List.suffix_refl _

theorem fracSplit_suffix (s : CStr) : (fracSplit s).2 <:+ s := by
  unfold fracSplit
  split
  · exact (List.dropWhile_suffix _).trans (List.suffix_cons _ _)
  · exact List.suffix_refl _

theorem decimalStrtof_suffix (s r : CStr) (v : F32) (h : decimalStrtof s = some (v, r)) :
    r <:+ s := by
  rw [decimalStrtof_eq] at h
  split_ifs at h
  simp only [Option.some.injEq, Prod.mk.injEq] at h
  rw [← h.2]
  exact (fracSplit_suffix _).trans ((List.dropWhile_suffix _).trans (signSplit_suffix s))

theorem stdLibc_readsPrefix : stdLibc.ReadsPrefix :=
  fun s v r h => decimalStrtof_suffix s r v h

theorem stdLibc_readsDecimals : stdLibc.ReadsDecimals :=
  fun _ _ _ h _ => h

/-- C13, amended: a line with fewer than five comma-separated fields (fewer
than four commas) is not parsed: `addBoatFromCSV` returns the store as it
was, with the message "Invalid boat data format." when the store is not
full, and the loop of `loadCSV` adds no record for the line. -/
theorem parse_rejects_short_line (L : Libc) (hpre : L.ReadsPrefix) (line : CStr)
    (h : line.count 44 < 4) :
    parseBoat L line = none ∧
    (∀ s : Store, (addBoatFromCSV L s line).1 = s ∧
      (s.boat_count < MAX_BOATS →
        addBoatFromCSV L s line = (s, some Msg.invalidBoatDataFormat))) ∧
    (∀ boats : List Boat, loadLine L boats line = boats) := by
  have hp := parseBoat_few_commas L hpre line h
  refine ⟨hp, fun s => ⟨?_, fun hlt => ?_⟩, fun boats => ?_⟩
  · unfold addBoatFromCSV
    split_ifs
    · rfl
    · rw [hp]
  · have hge : ¬ (s.boat_count ≥ MAX_BOATS) := by omega
    simp only [addBoatFromCSV, if_neg hge, hp]
  · simp only [loadLine, hp]

/-! ## Properties of the decimal numerals -/

theorem decDigits_acc (n : Nat) : ∀ (f1 f2 : Nat) (acc : CStr), n < f1 → n < f2 →
    decDigits f1 n acc = decDigits f2 n [] ++ acc := by
  induction n using Nat.strong_induction_on with
  | _ n ih =>
    intro f1 f2 acc h1 h2
    obtain ⟨k, rfl⟩ : ∃ k, f1 = k + 1 := ⟨f1 - 1, by omega⟩
    obtain ⟨j, rfl⟩ : ∃ j, f2 = j + 1 := ⟨f2 - 1, by omega⟩
    simp only [decDigits]
    split_ifs with hlt
    · rfl
    · have hdiv : n / 10 < n := Nat.div_lt_self (by omega) (by norm_num)
      rw [ih (n / 10) hdiv k j _ (by omega) (by omega),
        ih (n / 10) hdiv j j [n % 10 + 48] (by omega) (by omega)]
      simp

theorem natDigits_lt (n : Nat) (h : n < 10) : natDigits n = [n + 48] := by
  simp [natDigits, decDigits, h]

theorem natDigits_ge (n : Nat) (h : 10 ≤ n) :
    natDigits n = natDigits (n / 10) ++ [n % 10 + 48] := by
  have hlt : ¬ n < 10 := by omega
  have hdiv : n / 10 < n := Nat.div_lt_self (by omega) (by norm_num)
  simp only [natDigits, decDigits, if_neg hlt]
  exact decDigits_acc (n / 10) n (n / 10 + 1) _ hdiv (by omega)

theorem natDigits_all (n : Nat) : (natDigits n).all isdigit = true := by
  induction n using Nat.strong_induction_on with
  | _ n ih =>
    by_cases h : n < 10
    · rw [natDigits_lt n h]
      simp only [List.all_cons, List.all_nil, Bool.and_true, isdigit, Bool.and_eq_true,
        decide_eq_true_eq]
      omega
    · have hdiv : n / 10 < n := Nat.div_lt_self (by omega) (by norm_num)
      rw [natDigits_ge n (by omega), List.all_append, ih _ hdiv]
      simp only [List.all_cons, List.all_nil, Bool.and_true, isdigit, Bool.true_and,
        Bool.and_eq_true, decide_eq_true_eq]
      omega

theorem natDigits_head (n : Nat) : ∃ d ds, natDigits n = d :: ds ∧ isdigit d = true := by
  have hall := natDigits_all n
  cases hn : natDigits n with
  | nil =>
    exfalso
    by_cases h : n < 10
    · rw [natDigits_lt n h] at hn; cases hn
    · rw [natDigits_ge n (by omega)] at hn
      simp at hn
  | cons d ds =>
    rw [hn] at hall
    simp only [List.all_cons, Bool.and_eq_true] at hall
    exact ⟨d, ds, rfl, hall.1⟩

theorem digitsValue_natDigits (n : Nat) : ∀ (rest : CStr) (acc : Nat),
    digitsValue (natDigits n ++ rest) acc =
      digitsValue rest (acc * 10 ^ (natDigits n).length + n) := by
  induction n using Nat.strong_induction_on with
  | _ n ih =>
    intro rest acc
    by_cases h : n < 10
    · rw [natDigits_lt n h]
      have hd : isdigit (n + 48) = true := by
        simp only [isdigit, Bool.and_eq_true, decide_eq_true_eq]; omega
      simp only [List.singleton_append, digitsValue, hd, if_true, List.length_singleton,
        pow_one, Nat.add_sub_cancel]
      rfl
    · have hdiv : n / 10 < n := Nat.div_lt_self (by omega) (by norm_num)
      have hd : isdigit (n % 10 + 48) = true := by
        simp only [isdigit, Bool.and_eq_true, decide_eq_true_eq]; omega
      rw [natDigits_ge n (by omega), List.append_assoc, ih _ hdiv]
      simp only [List.singleton_append, digitsValue, hd, if_true, List.length_append,
        List.length_singleton, Nat.add_sub_cancel, pow_succ]
      congr 1
      have := Nat.div_add_mod n 10
      rw [Nat.add_mul, Nat.mul_assoc]
      omega

theorem natDigits_length_le (n : Nat) : ∀ k : Nat, 1 ≤ k → n < 10 ^ k →
    (natDigits n).length ≤ k := by
  induction n using Nat.strong_induction_on with
  | _ n ih =>
    intro k hk hn
    by_cases h : n < 10
    · rw [natDigits_lt n h]; simpa using hk
    · have hdiv : n / 10 < n := Nat.div_lt_self (by omega) (by norm_num)
      obtain ⟨j, rfl⟩ : ∃ j, k = j + 1 := ⟨k - 1, by omega⟩
      have hj : 1 ≤ j := by
        rcases Nat.eq_zero_or_pos j with h0 | h0
        · subst h0; simp at hn; omega
        · exact h0
      have hlt : n / 10 < 10 ^ j := by
        rw [pow_succ] at hn
        exact Nat.div_lt_of_lt_mul (by rw [Nat.mul_comm]; exact hn)
      have := ih _ hdiv j hj hlt
      rw [natDigits_ge n (by omega)]
      simp only [List.length_append, List.length_singleton]
      omega

theorem takeWhile_digits (ds rest : CStr) (h : ds.all isdigit = true) :
    (ds ++ rest).takeWhile isdigit = ds ++ rest.takeWhile isdigit := by
  induction ds with
  | nil => rfl
  | cons x xs ih =>
    simp only [List.all_cons, Bool.and_eq_true] at h
    simp [List.takeWhile_cons, h.1, ih h.2]

theorem dropWhile_digits (ds rest : CStr) (h : ds.all isdigit = true) :
    (ds ++ rest).dropWhile isdigit = rest.dropWhile isdigit := by
  induction ds with
  | nil => rfl
  | cons x xs ih =>
    simp only [List.all_cons, Bool.and_eq_true] at h
    simp [List.dropWhile_cons, h.1, ih h.2]

theorem wrap32_of_range (n : Int) (h1 : -2147483648 ≤ n) (h2 : n < 2147483648) :
    wrap32 n = n := by
  unfold wrap32
  omega

/-- Reading back with `atoi` what `%d` wrote gives the number written. -/
theorem atoi_printInt (n : Int) (h1 : -2147483648 ≤ n) (h2 : n < 2147483648) :
    atoi (printInt n) = n := by
  obtain ⟨d, ds, hd, hdig⟩ := natDigits_head n.natAbs
  have hval : digitsValue (natDigits n.natAbs) 0 = n.natAbs := by
    have := digitsValue_natDigits n.natAbs [] 0
    simpa [digitsValue] using this
  have hdr : isdigit d = true := hdig
  simp only [isdigit, Bool.and_eq_true, decide_eq_true_eq] at hdig
  have hsp : isspace d = false := by
    simp only [isspace, Bool.or_eq_false_iff, beq_eq_false_iff_ne, Bool.and_eq_false_imp,
      decide_eq_true_eq, decide_eq_false_iff_not]
    constructor <;> omega
  unfold atoi printInt
  by_cases hneg : n < 0
  · simp only [if_pos hneg]
    have h45 : isspace 45 = false := by decide
    simp only [List.dropWhile_cons, h45, Bool.false_eq_true, if_false, hval]
    rw [wrap32_of_range] <;> omega
  · simp only [if_neg hneg, hd, List.dropWhile_cons, hsp, Bool.false_eq_true, if_false]
    have hval' : digitsValue (d :: ds) 0 = n.natAbs := by rw [← hd]; exact hval
    split
    · rename_i r heq
      simp only [List.cons.injEq] at heq
      omega
    · rename_i r heq
      simp only [List.cons.injEq] at heq
      omega
    · rw [hval', wrap32_of_range] <;> omega

/-! ## Reading back what `printf` wrote -/

theorem signSplit_digit (d : Nat) (t : CStr) (h : isdigit d = true) :
    signSplit (d :: t) = (false, d :: t) := by
  simp only [isdigit, Bool.and_eq_true, decide_eq_true_eq] at h
  unfold signSplit
  split
  · rename_i r heq
    simp only [List.cons.injEq] at heq
    omega
  · rename_i r heq
    simp only [List.cons.injEq] at heq
    omega
  · rfl

theorem signSplit_signed (neg : Bool) (n : Nat) (rest : CStr) :
    signSplit ((if neg then [45] else []) ++ natDigits n ++ rest) =
      (neg, natDigits n ++ rest) := by
  cases neg with
  | true => rfl
  | false =>
    obtain ⟨d, ds, hd, hdig⟩ := natDigits_head n
    simp only [Bool.false_eq_true, if_false, List.nil_append, hd, List.cons_append]
    exact signSplit_digit d _ hdig

/-- A numeral without fraction, followed by a comma, as `decimalStrtof` reads it. -/
theorem decimalStrtof_whole (neg : Bool) (n : Nat) (t : CStr) :
    decimalStrtof ((if neg then [45] else []) ++ natDigits n ++ 44 :: t) =
      some (F32.ofRat neg n 1, 44 :: t) := by
  have h44 : isdigit 44 = false := by decide
  obtain ⟨d, ds, hd, _⟩ := natDigits_head n
  have hval : digitsValue (natDigits n) 0 = n := by
    have := digitsValue_natDigits n [] 0
    simpa [digitsValue] using this
  rw [decimalStrtof_eq, signSplit_signed, takeWhile_digits _ _ (natDigits_all n),
    dropWhile_digits _ _ (natDigits_all n)]
  simp only [List.takeWhile_cons, List.dropWhile_cons, h44, Bool.false_eq_true, if_false,
    List.append_nil, fracSplit, List.length_nil, pow_zero, hval]
  simp [hd]

/-- A numeral with two digits after the point, followed by a newline, as
`decimalStrtof` reads it. -/
theorem decimalStrtof_cents (neg : Bool) (m : Nat) :
    decimalStrtof ((if neg then [45] else []) ++ natDigits (m / 100) ++
        [46, m / 10 % 10 + 48, m % 10 + 48, 10]) =
      some (F32.ofRat neg m 100, [10]) := by
  have h46 : isdigit 46 = false := by decide
  have h10 : isdigit 10 = false := by decide
  have hd1 : isdigit (m / 10 % 10 + 48) = true := by
    simp only [isdigit, Bool.and_eq_true, decide_eq_true_eq]; omega
  have hd2 : isdigit (m % 10 + 48) = true := by
    simp only [isdigit, Bool.and_eq_true, decide_eq_true_eq]; omega
  obtain ⟨d, ds, hd, _⟩ := natDigits_head (m / 100)
  have hval : digitsValue (natDigits (m / 100) ++ [m / 10 % 10 + 48, m % 10 + 48]) 0 = m := by
    rw [digitsValue_natDigits]
    simp only [digitsValue, hd1, hd2, if_true, Nat.add_sub_cancel, Nat.zero_mul, Nat.zero_add]
    omega
  rw [decimalStrtof_eq, signSplit_signed, takeWhile_digits _ _ (natDigits_all _),
    dropWhile_digits _ _ (natDigits_all _)]
  simp only [List.takeWhile_cons, List.dropWhile_cons, h46, h10, hd1, hd2, Bool.false_eq_true,
    if_false, if_true, List.append_nil, fracSplit, List.takeWhile_nil, List.dropWhile_nil, hval,
    List.length_cons, List.length_nil]
  simp [hd]

theorem dropWhile_isspace_signed (neg : Bool) (n : Nat) (rest : CStr) :
    ((if neg then [45] else []) ++ natDigits n ++ rest).dropWhile isspace =
      (if neg then [45] else []) ++ natDigits n ++ rest := by
  cases neg with
  | true => rfl
  | false =>
    obtain ⟨d, ds, hd, hdig⟩ := natDigits_head n
    simp only [isdigit, Bool.and_eq_true, decide_eq_true_eq] at hdig
    have hsp : isspace d = false := by
      simp only [isspace, Bool.or_eq_false_iff, beq_eq_false_iff_ne, Bool.and_eq_false_imp,
        decide_eq_true_eq, decide_eq_false_iff_not]
      constructor <;> omega
    simp [hd, List.dropWhile_cons, hsp]

theorem roundHalfEven_nearest (n d : Nat) (hpos : 0 < d) :
    2 * (roundHalfEven n d * d) ≤ 2 * n + d ∧ 2 * n ≤ 2 * (roundHalfEven n d * d) + d := by
  have hdm := Nat.div_add_mod n d
  have hmod : n % d < d := Nat.mod_lt _ hpos
  rw [Nat.mul_comm d (n / d)] at hdm
  unfold roundHalfEven
  split_ifs with hc
  · rw [Nat.add_mul, Nat.one_mul]
    rcases hc with hc | hc <;> omega
  · have : ¬ d < 2 * (n % d) := fun h => hc (Or.inl h)
    omega

theorem fmtFixed_zero (x : F32) (h : x.isFinite = true) :
    fmtFixed 0 x = signText x ++ natDigits (x.scaled 0) := by
  have hm : x.mag < F32.infMag := by simpa [F32.isFinite] using h
  have h1 : x.isNaN = false := by simp [F32.isNaN]; omega
  have h2 : x.isInf = false := by simp [F32.isInf]; omega
  simp [fmtFixed, h1, h2]

theorem fmtFixed_two (x : F32) (h : x.isFinite = true) :
    fmtFixed 2 x = signText x ++ natDigits (x.scaled 2 / 100) ++
      [46, x.scaled 2 / 10 % 10 + 48, x.scaled 2 % 10 + 48] := by
  have hm : x.mag < F32.infMag := by simpa [F32.isFinite] using h
  have h1 : x.isNaN = false := by simp [F32.isNaN]; omega
  have h2 : x.isInf = false := by simp [F32.isInf]; omega
  simp [fmtFixed, h1, h2, fracDigits, List.range, List.range.loop]

theorem scanFloat_fmtFixed_zero (L : Libc) (hdec : L.ReadsDecimals) (x : F32)
    (h : x.isFinite = true) (t : CStr) :
    scanFloat L (fmtFixed 0 x ++ 44 :: t) = some (F32.ofRat x.sign (x.scaled 0) 1, 44 :: t) := by
  rw [fmtFixed_zero x h]
  unfold scanFloat signText
  rw [dropWhile_isspace_signed]
  exact hdec _ _ _ (decimalStrtof_whole x.sign _ t) (Or.inr (Or.inl rfl))

theorem scanFloat_fmtFixed_two (L : Libc) (hdec : L.ReadsDecimals) (x : F32)
    (h : x.isFinite = true) :
    scanFloat L (fmtFixed 2 x ++ [10]) = some (F32.ofRat x.sign (x.scaled 2) 100, [10]) := by
  rw [fmtFixed_two x h]
  unfold scanFloat signText
  rw [List.append_assoc, dropWhile_isspace_signed]
  exact hdec _ _ _ (decimalStrtof_cents x.sign _) (Or.inr (Or.inr rfl))

theorem printStr_valid (n : Nat) (t : CStr) (h : validField n t = true) : printStr t = t := by
  simp only [validField, Bool.and_eq_true] at h
  have hall := h.2
  unfold printStr
  clear h
  induction t with
  | nil => rfl
  | cons x xs ih =>
    simp only [List.all_cons, Bool.and_eq_true] at hall
    simp [List.takeWhile_cons, hall.1.2, ih hall.2]

theorem validField_printInt (n : Int) (h1 : -2147483648 ≤ n) (h2 : n < 2147483648) :
    validField 31 (printInt n) = true := by
  have hall := natDigits_all n.natAbs
  have hlen := natDigits_length_le n.natAbs 10 (by norm_num) (by norm_num; omega)
  obtain ⟨d, ds, hd, _⟩ := natDigits_head n.natAbs
  have hall' : (natDigits n.natAbs).all (fun c => c != 44 && c != 0) = true := by
    rw [List.all_eq_true] at hall ⊢
    intro c hc
    have := hall c hc
    simp only [isdigit, Bool.and_eq_true, decide_eq_true_eq] at this
    simp only [Bool.and_eq_true, bne_iff_ne, ne_eq]
    constructor <;> omega
  unfold printInt validField
  split_ifs
  · simp only [List.isEmpty_cons, Bool.not_false, Bool.true_and, List.length_cons,
      List.all_cons, hall', Bool.and_true, Bool.and_eq_true, decide_eq_true_eq]
    exact ⟨by omega, by decide⟩
  · rw [hd] at hlen hall' ⊢
    simp only [hall', Bool.and_true, Bool.and_eq_true, decide_eq_true_eq,
      List.isEmpty_cons, Bool.not_false, true_and]
    omega

/-- C12: for a line `name,length,kind,value,owed` whose name and value are
fields that `%127[^,]` and `%31[^,]` read whole and whose two numbers the
`%f` conversion reads as `len` and `owed`, the parser builds the boat with that
name, `len`, `owed` and the location `SLIP (atoi value)` for "slip",
`LAND` of the first character of the value for "land", `TRAILOR value` for
"trailor" and `STORAGE (atoi value)` for "storage"; the spelling "trailer"
selects none of the four.  `atoi` returns the integer that a numeral in the
range of `int` denotes. -/
theorem parseBoat_wellFormed (L : Libc) (name lenText value tail r : CStr) (len owed : F32)
    (hname : validField 127 name = true) (hvalue : validField 31 value = true)
    (hlen : ∀ rest, scanFloat L (lenText ++ 44 :: rest) = some (len, 44 :: rest))
    (howed : scanFloat L tail = some (owed, r)) :
    parseBoat L (csvLine name lenText (cstr "slip") value tail) =
      some ⟨name, len, Location.SLIP (atoi value), owed⟩ ∧
    parseBoat L (csvLine name lenText (cstr "land") value tail) =
      some ⟨name, len, Location.LAND (value.headD 0), owed⟩ ∧
    parseBoat L (csvLine name lenText (cstr "trailor") value tail) =
      some ⟨name, len, Location.TRAILOR value, owed⟩ ∧
    parseBoat L (csvLine name lenText (cstr "storage") value tail) =
      some ⟨name, len, Location.STORAGE (atoi value), owed⟩ ∧
    parseBoat L (csvLine name lenText (cstr "trailer") value tail) =
      some ⟨name, len, Location.UNSET, owed⟩ ∧
    (∀ n : Int, -2147483648 ≤ n → n < 2147483648 → atoi (printInt n) = n) ∧
    (∀ c : Nat, ([c] : CStr).headD 0 = c) := by
  refine ⟨?_, ?_, ?_, ?_, ?_, atoi_printInt, fun _ => rfl⟩
  · rw [csvLine, parseBoat_fields L name lenText _ value tail r len owed hname (by decide)
      hvalue (hlen _) howed]
    rfl
  · rw [csvLine, parseBoat_fields L name lenText _ value tail r len owed hname (by decide)
      hvalue (hlen _) howed]
    rfl
  · rw [csvLine, parseBoat_fields L name lenText _ value tail r len owed hname (by decide)
      hvalue (hlen _) howed]
    rfl
  · rw [csvLine, parseBoat_fields L name lenText _ value tail r len owed hname (by decide)
      hvalue (hlen _) howed]
    rfl
  · rw [csvLine, parseBoat_fields L name lenText _ value tail r len owed hname (by decide)
      hvalue (hlen _) howed]
    rfl

/-- C14, at the failing input: for the five-field line "a,10,dock,1,5.00",
whose kind is none of the four, `sscanf` returns 5 and the record is stored
with its location never assigned, by `addBoatFromCSV` and by `loadCSV`
alike. -/
theorem unknown_kind_is_stored :
    addBoatFromCSV stdLibc Store.empty (cstr "a,10,dock,1,5.00") =
      (⟨[⟨cstr "a", F32.ofRat false 10 1, Location.UNSET, F32.ofRat false 5 1⟩]⟩, none) ∧
    loadLine stdLibc [] (cstr "a,10,dock,1,5.00\n") =
      [⟨cstr "a", F32.ofRat false 10 1, Location.UNSET, F32.ofRat false 5 1⟩] ∧
    (loadCSV stdLibc Store.empty (some [cstr "a,10,dock,1,5.00\n"])).1.boat_count = 1 := by
  decide

/-- C16, amended: for a record of one of the four kinds with finite length
and balance, the line written is `name,length,...,owed` and a newline, where
the length field is an optional minus sign and the numeral of the integer
nearest to the length, ties going to the even integer, and the balance field
is an optional minus sign, a numeral, a point and exactly two digits. -/
theorem saveLine_renders (b : Boat) (hl : b.length.isFinite = true)
    (ho : b.amount_owed.isFinite = true) (hloc : b.location ≠ Location.UNSET) :
    (∃ mid : CStr, saveLine b =
      some (printStr b.name ++ 44 :: (fmtFixed 0 b.length ++ mid ++
        44 :: (fmtFixed 2 b.amount_owed ++ [10])))) ∧
    fmtFixed 0 b.length = signText b.length ++ natDigits (b.length.scaled 0) ∧
    (natDigits (b.length.scaled 0)).all isdigit = true ∧
    2 * (b.length.scaled 0 * 2 ^ 149) ≤ 2 * b.length.units + 2 ^ 149 ∧
    2 * b.length.units ≤ 2 * (b.length.scaled 0 * 2 ^ 149) + 2 ^ 149 ∧
    (2 * (b.length.units % 2 ^ 149) = 2 ^ 149 → b.length.scaled 0 % 2 = 0) ∧
    fmtFixed 2 b.amount_owed = signText b.amount_owed ++
      natDigits (b.amount_owed.scaled 2 / 100) ++
      [46, b.amount_owed.scaled 2 / 10 % 10 + 48, b.amount_owed.scaled 2 % 10 + 48] ∧
    isdigit (b.amount_owed.scaled 2 / 10 % 10 + 48) = true ∧
    isdigit (b.amount_owed.scaled 2 % 10 + 48) = true := by
  have hn := roundHalfEven_nearest (b.length.units * 10 ^ 0) (2 ^ 149) (Nat.pow_pos (by norm_num))
  simp only [pow_zero, Nat.mul_one] at hn
  refine ⟨?_, fmtFixed_zero _ hl, natDigits_all _, ?_, ?_, ?_, fmtFixed_two _ ho, ?_, ?_⟩
  · unfold saveLine
    cases hb : b.location with
    | SLIP n => exact ⟨cstr ",slip," ++ printInt n, by simp [List.append_assoc]⟩
    | LAND c => exact ⟨cstr ",land," ++ [c], by simp [List.append_assoc]⟩
    | TRAILOR t => exact ⟨cstr ",trailor," ++ printStr t, by simp [List.append_assoc]⟩
    | STORAGE n => exact ⟨cstr ",storage," ++ printInt n, by simp [List.append_assoc]⟩
    | UNSET => exact absurd hb hloc
  · simpa [F32.scaled] using hn.1
  · simpa [F32.scaled] using hn.2
  · intro htie
    simp only [F32.scaled, pow_zero, Nat.mul_one, roundHalfEven]
    have hlt : ¬ (2 ^ 149 < 2 * (b.length.units % 2 ^ 149)) := by omega
    by_cases hodd : b.length.units / 2 ^ 149 % 2 = 1
    · rw [if_pos (Or.inr ⟨htie, hodd⟩)]; omega
    · rw [if_neg (by rintro (h | h); exact hlt h; exact hodd h.2)]; omega
  · simp only [isdigit, Bool.and_eq_true, decide_eq_true_eq]; omega
  · simp only [isdigit, Bool.and_eq_true, decide_eq_true_eq]; omega

/-- C15, amended: for a record with a name, a location and finite numbers
that one CSV line can carry, parsing the line that `saveCSV` writes gives the
record with the same name and location, the length rounded to the nearest
integer (ties to even) and the balance rounded to two decimals (ties to
even) and then to the nearest `float`. -/
theorem parse_saveLine (L : Libc) (hdec : L.ReadsDecimals) (b : Boat) (line : CStr)
    (hname : validField 127 b.name = true) (hloc : validLocation b.location = true)
    (hl : b.length.isFinite = true) (ho : b.amount_owed.isFinite = true)
    (hs : saveLine b = some line) :
    parseBoat L line =
      some ⟨b.name, F32.ofRat b.length.sign (b.length.scaled 0) 1, b.location,
        F32.ofRat b.amount_owed.sign (b.amount_owed.scaled 2) 100⟩ := by
  have hlen := scanFloat_fmtFixed_zero L hdec b.length hl
  have howed := scanFloat_fmtFixed_two L hdec b.amount_owed ho
  have hpn := printStr_valid 127 b.name hname
  unfold saveLine at hs
  cases hb : b.location with
  | SLIP n =>
    rw [hb] at hs hloc
    simp only [validLocation, Bool.and_eq_true, decide_eq_true_eq] at hloc
    simp only [Option.some.injEq] at hs
    have hline : line = csvLine b.name (fmtFixed 0 b.length) (cstr "slip") (printInt n)
        (fmtFixed 2 b.amount_owed ++ [10]) := by
      rw [← hs, hpn]
      have : cstr ",slip," = 44 :: (cstr "slip" ++ [44]) := by decide
      simp [csvLine, this]
    rw [hline, csvLine, parseBoat_fields L _ _ _ _ _ _ _ _ hname (by decide)
      (validField_printInt n hloc.1 hloc.2) (hlen _) howed]
    have hl2 : locationOf (cstr "slip") (printInt n) = Location.SLIP (atoi (printInt n)) := rfl
    rw [hl2, atoi_printInt n hloc.1 hloc.2]
  | LAND c =>
    rw [hb] at hs hloc
    simp only [Option.some.injEq] at hs
    have hv : validField 31 [c] = true := by
      simp only [validLocation] at hloc
      simp [validField, hloc]
    have hline : line = csvLine b.name (fmtFixed 0 b.length) (cstr "land") [c]
        (fmtFixed 2 b.amount_owed ++ [10]) := by
      rw [← hs, hpn]
      have : cstr ",land," = 44 :: (cstr "land" ++ [44]) := by decide
      simp [csvLine, this]
    rw [hline, csvLine, parseBoat_fields L _ _ _ _ _ _ _ _ hname (by decide) hv (hlen _) howed]
    rfl
  | TRAILOR t =>
    rw [hb] at hs hloc
    simp only [Option.some.injEq] at hs
    simp only [validLocation] at hloc
    have hline : line = csvLine b.name (fmtFixed 0 b.length) (cstr "trailor") t
        (fmtFixed 2 b.amount_owed ++ [10]) := by
      rw [← hs, hpn, printStr_valid 31 t hloc]
      have : cstr ",trailor," = 44 :: (cstr "trailor" ++ [44]) := by decide
      simp [csvLine, this]
    rw [hline, csvLine, parseBoat_fields L _ _ _ _ _ _ _ _ hname (by decide) hloc (hlen _)
      howed]
    rfl
  | STORAGE n =>
    rw [hb] at hs hloc
    simp only [validLocation, Bool.and_eq_true, decide_eq_true_eq] at hloc
    simp only [Option.some.injEq] at hs
    have hline : line = csvLine b.name (fmtFixed 0 b.length) (cstr "storage") (printInt n)
        (fmtFixed 2 b.amount_owed ++ [10]) := by
      rw [← hs, hpn]
      have : cstr ",storage," = 44 :: (cstr "storage" ++ [44]) := by decide
      simp [csvLine, this]
    rw [hline, csvLine, parseBoat_fields L _ _ _ _ _ _ _ _ hname (by decide)
      (validField_printInt n hloc.1 hloc.2) (hlen _) howed]
    have hl2 : locationOf (cstr "storage") (printInt n) =
        Location.STORAGE (atoi (printInt n)) := rfl
    rw [hl2, atoi_printInt n hloc.1 hloc.2]
  | UNSET =>
    rw [hb] at hloc
    simp [validLocation] at hloc

/-! ## Rounding never falls below a representable lower bound -/

namespace F32

theorem excess_pos_div (fuel : Nat) : ∀ q : Nat, 0 < excess fuel q →
    8388608 ≤ q / 2 ^ (excess fuel q) := by
  induction fuel with
  | zero => intro q h; simp [excess] at h
  | succ fuel ih =>
    intro q h
    simp only [excess] at h ⊢
    split_ifs at h ⊢ with hq
    · omega
    · rw [pow_succ, Nat.mul_comm, ← Nat.div_div_eq_div_mul]
      rcases Nat.eq_zero_or_pos (excess fuel (q / 2)) with h0 | hpos
      · rw [h0]; simp only [pow_zero, Nat.div_one]; omega
      · exact ih _ hpos

theorem excess_lt_div (fuel : Nat) : ∀ q : Nat, excess fuel q < fuel →
    q / 2 ^ (excess fuel q) < 16777216 := by
  induction fuel with
  | zero => intro q h; simp [excess] at h
  | succ fuel ih =>
    intro q h
    simp only [excess] at h ⊢
    split_ifs at h ⊢ with hq
    · simpa using hq
    · rw [pow_succ, Nat.mul_comm, ← Nat.div_div_eq_div_mul]
      exact ih _ (by omega)

theorem units_pos (x : F32) (h : 0 < x.mag) : 0 < x.units := by
  unfold units
  simp only []
  split_ifs with he
  · have := Nat.div_add_mod x.mag 8388608
    omega
  · exact Nat.mul_pos (by omega) (Nat.pow_pos (by norm_num))

/-- Rounding a value that is at least the finite `a` gives at least `a`. -/
theorem roundUnits_mag_ge (a : F32) (hfin : a.mag < infMag) (neg : Bool) (n : Nat)
    (h : a.units ≤ n) : a.mag ≤ (roundUnits neg n 1).mag := by
  have hdm := Nat.div_add_mod a.mag 8388608
  have hf : a.mag % 8388608 < 8388608 := Nat.mod_lt _ (by norm_num)
  have hpos := excess_pos_div 256 n
  have hlt := excess_lt_div 256 n
  unfold units at h
  simp only [] at h
  simp only [roundUnits, Nat.div_one, Nat.one_mul]
  generalize excess 256 n = sh at hpos hlt ⊢
  generalize a.mag / 8388608 = e at h hdm
  generalize a.mag % 8388608 = f at h hdm hf
  have he : e ≤ 254 := by unfold infMag at hfin; omega
  have hgoal : a.mag ≤ sh * 8388608 + n / 2 ^ sh := by
    by_cases he0 : e = 0
    · rw [if_pos he0] at h
      rcases Nat.eq_zero_or_pos sh with hs | hs
      · subst hs; simp only [pow_zero, Nat.div_one]; omega
      · have := hpos hs; omega
    · rw [if_neg he0] at h
      by_cases hse : e ≤ sh
      · have := hpos (by omega)
        have : e * 8388608 ≤ sh * 8388608 := Nat.mul_le_mul_right _ hse
        omega
      · have hdiv := hlt (by omega)
        have hsplit : 2 ^ (e - 1) = 2 ^ (e - 1 - sh) * 2 ^ sh := by
          rw [← pow_add]; congr 1; omega
        rw [hsplit, ← Nat.mul_assoc] at h
        have hle : (8388608 + f) * 2 ^ (e - 1 - sh) ≤ n / 2 ^ sh :=
          (Nat.le_div_iff_mul_le (Nat.pow_pos (by norm_num))).mpr h
        by_cases hk : e - 1 - sh = 0
        · rw [hk] at hle
          simp only [pow_zero, Nat.mul_one] at hle
          have : sh = e - 1 := by omega
          subst this
          have : (e - 1) * 8388608 + 8388608 = e * 8388608 := by
            obtain ⟨j, rfl⟩ : ∃ j, e = j + 1 := ⟨e - 1, by omega⟩
            simp [Nat.add_mul]
          omega
        · have h2 : 2 ≤ 2 ^ (e - 1 - sh) := by
            calc 2 = 2 ^ 1 := by norm_num
              _ ≤ 2 ^ (e - 1 - sh) := Nat.pow_le_pow_right (by norm_num) (by omega)
          have : (8388608 + f) * 2 ≤ (8388608 + f) * 2 ^ (e - 1 - sh) :=
            Nat.mul_le_mul_left _ h2
          omega
  have hm : sh * 8388608 + n / 2 ^ sh ≤ sh * 8388608 +
      (if 2 ^ sh < 2 * (n % 2 ^ sh) ∨ 2 * (n % 2 ^ sh) = 2 ^ sh ∧ n / 2 ^ sh % 2 = 1
        then n / 2 ^ sh + 1 else n / 2 ^ sh) := by
    split_ifs <;> omega
  exact Nat.le_min.mpr ⟨Nat.le_trans hgoal hm, Nat.le_of_lt hfin⟩

/-- Subtracting a negative amount from a non-negative balance gives a balance
that is not smaller. -/
theorem sub_neg_ge (owed amount : F32) (h0 : ge owed (zero false) = true)
    (hneg : lt amount (zero false) = true) : ge (sub owed amount) owed = true := by
  rw [ge_zero_iff] at h0
  obtain ⟨hm, hk⟩ := h0
  have hz : (zero false).key = 0 := rfl
  have hparts : amount.isNaN = false ∧ amount.key < 0 := by
    simp only [lt, hz, Bool.and_eq_true, Bool.not_eq_true', decide_eq_true_eq] at hneg
    exact ⟨hneg.1.1, hneg.2⟩
  obtain ⟨hn, hak⟩ := hparts
  have hnm : amount.mag ≤ infMag := by simpa [isNaN] using hn
  have e1 : owed.isNaN = false := by simp [isNaN]; exact hm
  have e2 : (neg amount).isNaN = false := by simpa [isNaN, neg] using hnm
  have hup := units_pos amount
  have hround := roundUnits_mag_ge owed
  have hge_iff : ∀ x : F32, ge x owed = true ↔ (x.mag ≤ infMag ∧ owed.key ≤ x.key) := by
    intro x
    simp only [ge, le, e1, isNaN, Bool.not_false, Bool.true_and, Bool.and_eq_true,
      Bool.not_eq_true', decide_eq_false_iff_not, decide_eq_true_eq, Nat.not_lt]
    exact ⟨fun h => ⟨h.1.2, h.2⟩, fun h => ⟨⟨hm, h.1⟩, h.2⟩⟩
  rw [hge_iff]
  unfold sub add
  simp only [e1, e2, Bool.false_eq_true, if_false]
  rcases owed with ⟨so, mo, ho⟩
  rcases amount with ⟨sa, ma, ha⟩
  simp only [key, isInf, neg, toInt, units_zero, decide_eq_true_eq] at *
  cases sa
  · simp only [Bool.false_eq_true, if_false] at hak
    omega
  · simp only [if_true] at hak
    have hma : 0 < ma := by omega
    have hua := hup hma
    simp only [Bool.not_true, Bool.false_eq_true, if_false]
    by_cases hoi : mo = infMag
    · have hso : so = false := by
        cases so
        · rfl
        · simp only [if_true] at hk; unfold infMag at hoi; omega
      subst hso
      simp only [hoi, if_true, bne_self_eq_false, Bool.and_false, Bool.false_eq_true, if_false,
        le_refl, and_self]
    · rw [if_neg hoi]
      by_cases hai : ma = infMag
      · rw [if_pos hai]
        simp only [Bool.false_eq_true, if_false]
        refine ⟨by omega, ?_⟩
        cases so <;> simp only [Bool.false_eq_true, if_false, if_true] <;> omega
      · rw [if_neg hai]
        have hmo : mo < infMag := by omega
        have hunits : (⟨so, mo, ho⟩ : F32).toInt = ((⟨so, mo, ho⟩ : F32).units : Int) := by
          cases so
          · simp [toInt]
          · simp only [if_true] at hk
            have hmo0 : mo = 0 := by omega
            subst hmo0
            simp [toInt, units]
        simp only [toInt] at hunits
        rw [hunits]
        have hsum : ¬ (((⟨so, mo, ho⟩ : F32).units : Int) +
            ((⟨false, ma, ha⟩ : F32).units : Int) = 0) := by
          have : 0 < (⟨false, ma, ha⟩ : F32).units := hua
          omega
        have hsneg : ¬ (((⟨so, mo, ho⟩ : F32).units : Int) +
            ((⟨false, ma, ha⟩ : F32).units : Int) < 0) := by omega
        rw [if_neg hsum]
        simp only [hsneg, decide_False]
        have hnat : (((⟨so, mo, ho⟩ : F32).units : Int) +
            ((⟨false, ma, ha⟩ : F32).units : Int)).natAbs =
            (⟨so, mo, ho⟩ : F32).units + (⟨false, ma, ha⟩ : F32).units := by omega
        rw [hnat]
        have hr := hround hmo false
          ((⟨so, mo, ho⟩ : F32).units + (⟨false, ma, ha⟩ : F32).units) (by omega)
        refine ⟨roundUnits_mag_le _ _ _, ?_⟩
        simp only [roundUnits_sign, Bool.false_eq_true, if_false]
        simp only [] at hr
        cases so <;> simp only [Bool.false_eq_true, if_false, if_true] <;> omega

end F32

/-- C19, amended: for a boat `b` found by name at index `i` with a balance
`>= 0`, a payment `amount < 0` is accepted without a message, the balance
becomes `b.amount_owed - amount`, and the new balance is greater than or
equal to the old one. -/
theorem takePayment_negative (L : Libc) (s : Store) (name : CStr) (amount : F32) (i : Nat)
    (b : Boat) (hi : findBoatIndex s name = (i : Int)) (hb : s.boats[i]? = some b)
    (h0 : F32.ge b.amount_owed (F32.zero false) = true)
    (hneg : F32.lt amount (F32.zero false) = true) :
    takePayment s name amount =
      (⟨s.boats.set i { b with amount_owed := F32.sub b.amount_owed amount }⟩, none) ∧
    step L s (Cmd.payment name amount) =
      ⟨s.boats.set i { b with amount_owed := F32.sub b.amount_owed amount }⟩ ∧
    F32.ge (F32.sub b.amount_owed amount) b.amount_owed = true := by
  have hgt : ¬ (F32.gt amount b.amount_owed = true) := by
    rw [F32.ge_zero_iff] at h0
    have hz : (F32.zero false).key = 0 := rfl
    simp only [F32.lt, hz, Bool.and_eq_true, Bool.not_eq_true', decide_eq_true_eq] at hneg
    simp only [F32.gt, F32.lt, Bool.and_eq_true, Bool.not_eq_true', decide_eq_true_eq, not_and,
      not_lt]
    intro _
    omega
  have htp := takePayment_found s name amount i b hi hb
  rw [if_neg hgt] at htp
  refine ⟨htp, ?_, F32.sub_neg_ge _ _ h0 hneg⟩
  have hne : ¬ (findBoatIndex s name = -1) := by rw [hi]; omega
  simp only [step, if_neg hne, htp]

/-! ## Concrete instances, continued -/

theorem session_sorted_within_capacity_witness :
    stdLibc.Conforming ∧
    (loadCSV stdLibc Store.empty (some [betaLine, alphaLine])).1.boat_count ≤ MAX_BOATS ∧
    ((session stdLibc (some [betaLine, alphaLine]) []).boat_count ≤ MAX_BOATS ∧
      Sorted (session stdLibc (some [betaLine, alphaLine]) []).boats ∧
      ∀ (i j : Nat) (x y : Boat), i < j →
        (session stdLibc (some [betaLine, alphaLine]) []).boats[i]? = some x →
        (session stdLibc (some [betaLine, alphaLine]) []).boats[j]? = some y →
        strcasecmp x.name y.name ≤ 0) ∧
    (session stdLibc (some [betaLine, alphaLine]) []).boats.map (fun b => b.name) =
      [cstr "Alpha", cstr "beta"] :=
  ⟨stdLibc_conforming, by decide,
    session_sorted_within_capacity stdLibc stdLibc_conforming (some [betaLine, alphaLine]) []
      (by decide),
    by decide⟩

theorem scanFloat_twenty (rest : CStr) :
    scanFloat stdLibc (cstr "20" ++ 44 :: rest) = some (F32.ofRat false 20 1, 44 :: rest) := by
  have h : cstr "20" = (if false then [45] else []) ++ natDigits 20 := by decide
  rw [h]
  unfold scanFloat
  rw [dropWhile_isspace_signed]
  exact decimalStrtof_whole false 20 rest

theorem parseBoat_wellFormed_witness :
    validField 127 (cstr "Betty") = true ∧ validField 31 (cstr "3") = true ∧
    (∀ rest, scanFloat stdLibc (cstr "20" ++ 44 :: rest) =
      some (F32.ofRat false 20 1, 44 :: rest)) ∧
    scanFloat stdLibc (cstr "100.00") = some (F32.ofRat false 100 1, []) ∧
    parseBoat stdLibc (csvLine (cstr "Betty") (cstr "20") (cstr "slip") (cstr "3")
      (cstr "100.00")) = some betty ∧
    csvLine (cstr "Betty") (cstr "20") (cstr "slip") (cstr "3") (cstr "100.00") = bettyLine :=
  ⟨by decide, by decide, scanFloat_twenty, by decide,
    (parseBoat_wellFormed stdLibc (cstr "Betty") (cstr "20") (cstr "3") (cstr "100.00") []
      (F32.ofRat false 20 1) (F32.ofRat false 100 1) (by decide) (by decide) scanFloat_twenty
      (by decide)).1.trans (by decide),
    by decide⟩

theorem parse_rejects_short_line_witness :
    stdLibc.ReadsPrefix ∧ shortLine.count 44 < 4 ∧
    parseBoat stdLibc shortLine = none ∧
    (∀ s : Store, (addBoatFromCSV stdLibc s shortLine).1 = s ∧
      (s.boat_count < MAX_BOATS →
        addBoatFromCSV stdLibc s shortLine = (s, some Msg.invalidBoatDataFormat))) ∧
    (∀ boats : List Boat, loadLine stdLibc boats shortLine = boats) :=
  ⟨stdLibc_readsPrefix, by decide,
    parse_rejects_short_line stdLibc stdLibc_readsPrefix shortLine (by decide)⟩

/-- C13 as stated fails for a line of more than five fields: `extraLine` has
six fields (five commas); `sscanf` converts the first five and returns 5, so
the line is parsed and `addBoatFromCSV` stores its record. -/
theorem extra_field_counterexample :
    extraLine.count 44 + 1 = 6 ∧
    parseBoat stdLibc extraLine =
      some ⟨cstr "a", F32.ofRat false 10 1, Location.SLIP 1, F32.ofRat false 5 1⟩ ∧
    addBoatFromCSV stdLibc Store.empty extraLine =
      (⟨[⟨cstr "a", F32.ofRat false 10 1, Location.SLIP 1, F32.ofRat false 5 1⟩]⟩, none) ∧
    loadLine stdLibc [] extraLine =
      [⟨cstr "a", F32.ofRat false 10 1, Location.SLIP 1, F32.ofRat false 5 1⟩] := by
  decide

theorem parse_saveLine_witness :
    stdLibc.ReadsDecimals ∧ validField 127 betty.name = true ∧
    validLocation betty.location = true ∧ betty.length.isFinite = true ∧
    betty.amount_owed.isFinite = true ∧
    saveLine betty = some (cstr "Betty,20,slip,3,100.00\n") ∧
    parseBoat stdLibc (cstr "Betty,20,slip,3,100.00\n") = some betty :=
  ⟨stdLibc_readsDecimals, by decide, by decide, by decide, by decide, by decide,
    (parse_saveLine stdLibc stdLibc_readsDecimals betty (cstr "Betty,20,slip,3,100.00\n")
      (by decide) (by decide) (by decide) (by decide) (by decide)).trans (by decide)⟩

/-- C15 as stated fails on length and balance: the line "Betty,20.7,slip,3,0.125"
parses into `oddBoat`; `saveCSV` writes it as "Betty,21,slip,3,0.12"; parsing
that line gives length 21, not 20, and a balance of 0.12, not 0.125. -/
theorem save_then_parse_counterexample :
    parseBoat stdLibc (cstr "Betty,20.7,slip,3,0.125") = some oddBoat ∧
    saveLine oddBoat = some (cstr "Betty,21,slip,3,0.12\n") ∧
    parseBoat stdLibc (cstr "Betty,21,slip,3,0.12\n") =
      some ⟨cstr "Betty", F32.ofRat false 21 1, Location.SLIP 3, F32.ofRat false 12 100⟩ ∧
    loadCSV stdLibc Store.empty (some (saveCSV ⟨[oddBoat]⟩)) =
      (⟨[⟨cstr "Betty", F32.ofRat false 21 1, Location.SLIP 3, F32.ofRat false 12 100⟩]⟩, none) ∧
    F32.eq (F32.ofRat false 12 100) oddBoat.amount_owed = false ∧
    F32.eq (F32.ofRat false 21 1) (F32.ofRat false 20 1) = false := by
  decide

/-- The examples of the claim under rounding: a length of 20.5 is written as
20 (a tie, taken to the even integer). -/
theorem saveLine_renders_witness :
    (trailerOfLength (F32.ofRat false 205 10)).length.isFinite = true ∧
    (trailerOfLength (F32.ofRat false 205 10)).amount_owed.isFinite = true ∧
    (trailerOfLength (F32.ofRat false 205 10)).location ≠ Location.UNSET ∧
    fmtFixed 0 (trailerOfLength (F32.ofRat false 205 10)).length =
      signText (trailerOfLength (F32.ofRat false 205 10)).length ++
        natDigits ((trailerOfLength (F32.ofRat false 205 10)).length.scaled 0) ∧
    saveLine (trailerOfLength (F32.ofRat false 205 10)) =
      some (cstr "Tow,20,trailor,X1,100.00\n") :=
  ⟨by decide, by decide, by decide,
    (saveLine_renders (trailerOfLength (F32.ofRat false 205 10)) (by decide) (by decide)
      (by decide)).2.1,
    by decide⟩

/-- C16 as stated fails on truncation: a length of 20.7 is written as 21. -/
theorem length_rounded_counterexample :
    parseBoat stdLibc (cstr "Tow,20.7,trailor,X1,100") =
      some (trailerOfLength (F32.ofRat false 207 10)) ∧
    fmtFixed 0 (F32.ofRat false 207 10) = cstr "21" ∧
    saveLine (trailerOfLength (F32.ofRat false 207 10)) =
      some (cstr "Tow,21,trailor,X1,100.00\n") ∧
    saveCSV ⟨[trailerOfLength (F32.ofRat false 207 10)]⟩ = [cstr "Tow,21,trailor,X1,100.00\n"] := by
  decide

theorem loadCSV_records_within_capacity_witness :
    stdLibc.Conforming ∧
    ([betaLine, shortLine, alphaLine].filterMap (parseBoat stdLibc)).length ≤ MAX_BOATS ∧
    (loadCSV stdLibc Store.empty (some [betaLine, shortLine, alphaLine])).1.boats.Perm
      ([betaLine, shortLine, alphaLine].filterMap (parseBoat stdLibc)) ∧
    [betaLine, shortLine, alphaLine].filterMap (parseBoat stdLibc) =
      [⟨cstr "beta", F32.ofRat false 15 1, Location.LAND 66, F32.ofRat false 50 1⟩, alpha] ∧
    (loadCSV stdLibc Store.empty (some [betaLine, shortLine, alphaLine])).1.boat_count = 2 :=
  ⟨stdLibc_conforming, by decide,
    (loadCSV_records_within_capacity stdLibc stdLibc_conforming [betaLine, shortLine, alphaLine]
      (by decide)).1,
    by decide, by decide⟩

theorem takePayment_negative_witness :
    findBoatIndex ⟨[betty]⟩ (cstr "Betty") = ((0 : Nat) : Int) ∧
    (⟨[betty]⟩ : Store).boats[0]? = some betty ∧
    F32.ge betty.amount_owed (F32.zero false) = true ∧
    F32.lt (F32.ofRat true 50 1) (F32.zero false) = true ∧
    takePayment ⟨[betty]⟩ (cstr "Betty") (F32.ofRat true 50 1) =
      (⟨[{ betty with amount_owed := F32.ofRat false 150 1 }]⟩, none) ∧
    F32.ge (F32.sub betty.amount_owed (F32.ofRat true 50 1)) betty.amount_owed = true :=
  ⟨by decide, by decide, by decide, by decide,
    (takePayment_negative stdLibc ⟨[betty]⟩ (cstr "Betty") (F32.ofRat true 50 1) 0 betty
      (by decide) (by decide) (by decide) (by decide)).1.trans (by decide),
    (takePayment_negative stdLibc ⟨[betty]⟩ (cstr "Betty") (F32.ofRat true 50 1) 0 betty
      (by decide) (by decide) (by decide) (by decide)).2.2⟩

/-- C19 as stated fails on "strictly greater": Betty owes 100.00; the payment
-0.000001 is below half of the spacing of `float` at 100, so the accepted
payment leaves the balance at exactly 100.00. -/
theorem negative_payment_absorbed_counterexample :
    findBoatIndex ⟨[betty]⟩ (cstr "Betty") = ((0 : Nat) : Int) ∧
    F32.ge betty.amount_owed (F32.zero false) = true ∧
    F32.lt (F32.ofRat true 1 1000000) (F32.zero false) = true ∧
    takePayment ⟨[betty]⟩ (cstr "Betty") (F32.ofRat true 1 1000000) = (⟨[betty]⟩, none) ∧
    F32.gt (F32.sub betty.amount_owed (F32.ofRat true 1 1000000)) betty.amount_owed = false := by
  decide

/-! ## The merge sort of `qsort` -/

theorem compareBoats_trans (a b c : Boat) (hab : compareBoats a b ≤ 0)
    (hbc : compareBoats b c ≤ 0) : compareBoats a c ≤ 0 :=
  strcasecmp_trans a.name b.name c.name hab hbc

theorem compareBoats_total (a b : Boat) (h : ¬ compareBoats a b ≤ 0) : compareBoats b a ≤ 0 := by
  have := strcasecmp_swap a.name b.name
  unfold compareBoats at h ⊢
  omega

theorem sameName_self (x : Boat) : sameName x.name x = true := by
  simp [sameName, strcasecmp_self]

/-- Two records with the name `k` compare equal. -/
theorem compareBoats_of_sameName (k : CStr) (x y : Boat) (hx : sameName k x = true)
    (hy : sameName k y = true) : compareBoats x y = 0 := by
  simp only [sameName, decide_eq_true_eq] at hx hy
  have h1 := strcasecmp_swap y.name k
  have h2 := strcasecmp_swap x.name k
  have h3 := strcasecmp_trans x.name k y.name (by omega) (by omega)
  have h4 := strcasecmp_trans y.name k x.name (by omega) (by omega)
  have h5 := strcasecmp_swap x.name y.name
  unfold compareBoats
  omega

theorem mergeLoop_perm (cmp : Boat → Boat → Int) (fuel : Nat) : ∀ l r : List Boat,
    (mergeLoop cmp fuel l r).Perm (l ++ r) := by
  induction fuel with
  | zero => intro l r; exact List.Perm.refl _
  | succ fuel ih =>
    intro l r
    cases l with
    | nil => simp [mergeLoop]
    | cons a l =>
      cases r with
      | nil => simp [mergeLoop]
      | cons b r =>
        simp only [mergeLoop]
        split_ifs
        · exact (ih l (b :: r)).cons a
        · exact ((ih (a :: l) r).cons b).trans (List.perm_middle.symm)

theorem mergeLoop_sorted (fuel : Nat) : ∀ l r : List Boat, l.length + r.length ≤ fuel →
    Sorted l → Sorted r → Sorted (mergeLoop compareBoats fuel l r) := by
  induction fuel with
  | zero =>
    intro l r hlen hl hr
    have h1 : l = [] := List.length_eq_zero.mp (by omega)
    have h2 : r = [] := List.length_eq_zero.mp (by omega)
    subst h1; subst h2
    exact List.Pairwise.nil
  | succ fuel ih =>
    intro l r hlen hl hr
    cases l with
    | nil => simpa [mergeLoop] using hr
    | cons a l =>
      cases r with
      | nil => simpa [mergeLoop] using hl
      | cons b r =>
        have hl' := List.pairwise_cons.mp hl
        have hr' := List.pairwise_cons.mp hr
        simp only [List.length_cons] at hlen
        simp only [mergeLoop]
        split_ifs with hab
        · refine List.pairwise_cons.mpr ⟨?_, ih l (b :: r) (by simp; omega) hl'.2 hr⟩
          intro x hx
          rcases List.mem_append.mp ((mergeLoop_perm _ _ _ _).mem_iff.mp hx) with h | h
          · exact hl'.1 x h
          · rcases List.mem_cons.mp h with h | h
            · subst h; exact hab
            · exact compareBoats_trans a b x hab (hr'.1 x h)
        · have hba := compareBoats_total a b hab
          refine List.pairwise_cons.mpr ⟨?_, ih (a :: l) r (by simp; omega) hl hr'.2⟩
          intro x hx
          rcases List.mem_append.mp ((mergeLoop_perm _ _ _ _).mem_iff.mp hx) with h | h
          · rcases List.mem_cons.mp h with h | h
            · subst h; exact hba
            · exact compareBoats_trans b a x hba (hl'.1 x h)
          · exact hr'.1 x h

/-- Merging keeps, for every name, the records of the first run in front of
those of the second. -/
theorem mergeLoop_filter (k : CStr) (fuel : Nat) : ∀ l r : List Boat, Sorted l →
    (mergeLoop compareBoats fuel l r).filter (sameName k) =
      l.filter (sameName k) ++ r.filter (sameName k) := by
  induction fuel with
  | zero => intro l r _; simp [mergeLoop]
  | succ fuel ih =>
    intro l r hl
    cases l with
    | nil => simp [mergeLoop]
    | cons a l =>
      cases r with
      | nil => simp [mergeLoop]
      | cons b r =>
        have hl' := List.pairwise_cons.mp hl
        simp only [mergeLoop]
        split_ifs with hab
        · rw [List.filter_cons, ih l (b :: r) hl'.2]
          by_cases ha : sameName k a = true <;> simp [List.filter_cons, ha]
        · rw [List.filter_cons, ih (a :: l) r hl]
          by_cases hb : sameName k b = true
          · have hnone : (a :: l).filter (sameName k) = [] := by
              rw [List.filter_eq_nil_iff]
              intro x hx hkx
              have hxb := compareBoats_of_sameName k x b hkx hb
              have hax : compareBoats a x ≤ 0 := by
                rcases List.mem_cons.mp hx with h | h
                · subst h; simp [compareBoats, strcasecmp_self]
                · exact hl'.1 x h
              exact hab (compareBoats_trans a x b hax (by omega))
            simp [hnone, hb, List.filter_cons]
          · simp [hb, List.filter_cons]

theorem msortLoop_perm (cmp : Boat → Boat → Int) (fuel : Nat) : ∀ l : List Boat,
    (msortLoop cmp fuel l).Perm l := by
  induction fuel with
  | zero => intro l; exact List.Perm.refl _
  | succ fuel ih =>
    intro l
    simp only [msortLoop]
    split_ifs
    · exact List.Perm.refl _
    · refine (mergeLoop_perm _ _ _ _).trans ?_
      have h := (ih (l.take (l.length / 2))).append (ih (l.drop (l.length / 2)))
      rwa [List.take_append_drop] at h

theorem msortLoop_sorted (fuel : Nat) : ∀ l : List Boat, l.length ≤ fuel + 1 →
    Sorted (msortLoop compareBoats fuel l) := by
  induction fuel with
  | zero =>
    intro l hl
    simp only [msortLoop]
    match l, hl with
    | [], _ => exact List.Pairwise.nil
    | [x], _ => exact List.pairwise_singleton _ _
  | succ fuel ih =>
    intro l hl
    simp only [msortLoop]
    split_ifs with h1
    · match l, h1 with
      | [], _ => exact List.Pairwise.nil
      | [x], _ => exact List.pairwise_singleton _ _
    · have hlt : l.length / 2 < l.length := Nat.div_lt_self (by omega) (by norm_num)
      have hpos : 0 < l.length / 2 := Nat.div_pos (by omega) (by norm_num)
      refine mergeLoop_sorted _ _ _ ?_ (ih _ ?_) (ih _ ?_)
      · rw [(msortLoop_perm _ _ _).length_eq, (msortLoop_perm _ _ _).length_eq,
          List.length_take, List.length_drop]
        omega
      · rw [List.length_take]; omega
      · rw [List.length_drop]; omega

/-- The merge sort keeps, for every name, the records of that name in the
order they had. -/
theorem msortLoop_filter (k : CStr) (fuel : Nat) : ∀ l : List Boat, l.length ≤ fuel + 1 →
    (msortLoop compareBoats fuel l).filter (sameName k) = l.filter (sameName k) := by
  induction fuel with
  | zero => intro l _; rfl
  | succ fuel ih =>
    intro l hl
    simp only [msortLoop]
    split_ifs with h1
    · rfl
    · have hlt : l.length / 2 < l.length := Nat.div_lt_self (by omega) (by norm_num)
      have hpos : 0 < l.length / 2 := Nat.div_pos (by omega) (by norm_num)
      have ht : (l.take (l.length / 2)).length ≤ fuel + 1 := by rw [List.length_take]; omega
      have hd : (l.drop (l.length / 2)).length ≤ fuel + 1 := by rw [List.length_drop]; omega
      rw [mergeLoop_filter k _ _ _ (msortLoop_sorted fuel _ ht), ih _ ht, ih _ hd,
        ← List.filter_append, List.take_append_drop]

theorem glibcQsort_perm (l : List Boat) : (glibcQsort compareBoats l).Perm l :=
  msortLoop_perm _ _ l

theorem glibcQsort_sorted (l : List Boat) : Sorted (glibcQsort compareBoats l) :=
  msortLoop_sorted _ l (Nat.le_succ _)

theorem glibcQsort_filter (k : CStr) (l : List Boat) :
    (glibcQsort compareBoats l).filter (sameName k) = l.filter (sameName k) :=
  msortLoop_filter k _ l (Nat.le_succ _)

/-- The library with glibc's `qsort` meets the contract of `qsort`. -/
theorem glibcLibc_conforming (f : CStr → Option (F32 × CStr)) : (glibcLibc f).Conforming :=
  ⟨glibcQsort_perm, glibcQsort_sorted⟩

/-- Two sorted lists that hold, for every name, the same records of that name
in the same order are equal. -/
theorem eq_of_sorted_of_filter : ∀ l1 l2 : List Boat, Sorted l1 → Sorted l2 →
    (∀ k, l1.filter (sameName k) = l2.filter (sameName k)) → l1 = l2 := by
  intro l1
  induction l1 with
  | nil =>
    intro l2 _ _ h
    cases l2 with
    | nil => rfl
    | cons c t =>
      have := h c.name
      simp [List.filter_cons, sameName_self] at this
  | cons a t1 ih =>
    intro l2 h1 h2 h
    cases l2 with
    | nil =>
      have := h a.name
      simp [List.filter_cons, sameName_self] at this
    | cons c t2 =>
      have h1' := List.pairwise_cons.mp h1
      have h2' := List.pairwise_cons.mp h2
      have hac : a = c := by
        have ha := h a.name
        rw [List.filter_cons, if_pos (sameName_self a), List.filter_cons] at ha
        by_cases hc : sameName a.name c = true
        · rw [if_pos hc] at ha
          exact (List.cons.inj ha).1
        · rw [if_neg hc] at ha
          exfalso
          have hamem : a ∈ t2 := by
            have : a ∈ t2.filter (sameName a.name) := by rw [← ha]; exact List.mem_cons_self _ _
            exact (List.mem_filter.mp this).1
          have hca : compareBoats c a ≤ 0 := h2'.1 a hamem
          have hcn := h c.name
          have hna : ¬ (sameName c.name a = true) := by
            intro hx
            apply hc
            simp only [sameName, decide_eq_true_eq] at hx ⊢
            have := strcasecmp_swap a.name c.name
            omega
          rw [List.filter_cons, if_neg hna, List.filter_cons, if_pos (sameName_self c)] at hcn
          have hcmem : c ∈ t1 := by
            have : c ∈ t1.filter (sameName c.name) := by rw [hcn]; exact List.mem_cons_self _ _
            exact (List.mem_filter.mp this).1
          have hac' : compareBoats a c ≤ 0 := h1'.1 c hcmem
          apply hc
          simp only [sameName, decide_eq_true_eq]
          have := strcasecmp_swap a.name c.name
          unfold compareBoats at hca hac'
          omega
      subst hac
      congr 1
      apply ih t2 h1'.2 h2'.2
      intro k
      have hk := h k
      rw [List.filter_cons, List.filter_cons] at hk
      split_ifs at hk
      · exact (List.cons.inj hk).2
      · exact hk

theorem filter_eraseIdx_of_not (p : Boat → Bool) (l : List Boat) (i : Nat) (b : Boat)
    (hb : l[i]? = some b) (hp : p b = false) : (l.eraseIdx i).filter p = l.filter p := by
  induction l generalizing i with
  | nil => rfl
  | cons x xs ih =>
    cases i with
    | zero =>
      simp only [List.getElem?_cons_zero, Option.some.injEq] at hb
      subst hb
      simp [List.filter_cons, hp]
    | succ i =>
      simp only [List.getElem?_cons_succ] at hb
      simp only [List.eraseIdx_cons_succ, List.filter_cons, ih i hb]

theorem eraseIdx_perm (l : List Boat) (i : Nat) (b : Boat) (h : l[i]? = some b) :
    (b :: l.eraseIdx i).Perm l := by
  induction l generalizing i with
  | nil => simp at h
  | cons x xs ih =>
    cases i with
    | zero =>
      simp only [List.getElem?_cons_zero, Option.some.injEq] at h
      subst h
      simp
    | succ i =>
      simp only [List.getElem?_cons_succ] at h
      simp only [List.eraseIdx_cons_succ]
      exact (List.Perm.swap x b _).trans ((ih i h).cons x)

/-- C18: with `qsort` as glibc performs it, `sortBoats` is stable: for every
name the records of that name come out in the order they had, so any two
records whose names are equal case-insensitively keep their relative order;
the result holds the same records, in ascending name order; and a boat
added by `addBoatFromCSV` to a store that is not full is placed after the
boats of the same name already there. -/
theorem sortBoats_stable (f : CStr → Option (F32 × CStr)) (s : Store) :
    (∀ k : CStr, (sortBoats (glibcLibc f) s).boats.filter (sameName k) =
      s.boats.filter (sameName k)) ∧
    (∀ x y : Boat, strcasecmp x.name y.name = 0 → List.Sublist [x, y] s.boats →
      List.Sublist [x, y] (sortBoats (glibcLibc f) s).boats) ∧
    (sortBoats (glibcLibc f) s).boats.Perm s.boats ∧
    Sorted (sortBoats (glibcLibc f) s).boats ∧
    (∀ (csv : CStr) (b : Boat), s.boat_count < MAX_BOATS →
      parseBoat (glibcLibc f) csv = some b →
      (addBoatFromCSV (glibcLibc f) s csv).1.boats.filter (sameName b.name) =
        s.boats.filter (sameName b.name) ++ [b]) := by
  refine ⟨fun k => glibcQsort_filter k _, ?_, glibcQsort_perm _, glibcQsort_sorted _, ?_⟩
  · intro x y hxy hsub
    have hy : sameName y.name y = true := sameName_self y
    have hx : sameName y.name x = true := by simp [sameName, hxy]
    have h1 : [x, y].filter (sameName y.name) = [x, y] := by simp [List.filter_cons, hx, hy]
    have h2 := hsub.filter (sameName y.name)
    rw [h1, ← glibcQsort_filter y.name s.boats] at h2
    exact h2.trans (List.filter_sublist _)
  · intro csv b hlt hp
    have hge : ¬ (s.boat_count ≥ MAX_BOATS) := by omega
    simp only [addBoatFromCSV, if_neg hge, hp, sortBoats]
    show (glibcQsort compareBoats (s.boats ++ [b])).filter (sameName b.name) = _
    rw [glibcQsort_filter, List.filter_append]
    simp [List.filter_cons, sameName_self]

/-- C20: with `qsort` as glibc performs it, for a store that is sorted, holds
fewer than `MAX_BOATS` records and has no record matching `b.name`, adding
the line of `b` and then removing `b.name` gives back the store as it was:
the same records in the same order. -/
theorem add_then_remove (f : CStr → Option (F32 × CStr)) (s : Store) (csv : CStr) (b : Boat)
    (hs : Sorted s.boats) (hlt : s.boat_count < MAX_BOATS)
    (hp : parseBoat (glibcLibc f) csv = some b)
    (hno : ∀ r ∈ s.boats, strcasecmp r.name b.name ≠ 0) :
    (removeBoat (addBoatFromCSV (glibcLibc f) s csv).1 b.name).1 = s ∧
    (removeBoat (addBoatFromCSV (glibcLibc f) s csv).1 b.name).1.boat_count = s.boat_count := by
  have hadd : addBoatFromCSV (glibcLibc f) s csv =
      (⟨glibcQsort compareBoats (s.boats ++ [b])⟩, none) := by
    have hge : ¬ (s.boat_count ≥ MAX_BOATS) := by omega
    simp only [addBoatFromCSV, if_neg hge, hp, sortBoats]
    rfl
  have hperm := glibcQsort_perm (s.boats ++ [b])
  have hsorted := glibcQsort_sorted (s.boats ++ [b])
  have hmem : b ∈ glibcQsort compareBoats (s.boats ++ [b]) := hperm.mem_iff.mpr (by simp)
  obtain ⟨i, hi, hlt', ⟨r, hr, hm⟩, _⟩ :=
    findBoatIndex_some ⟨glibcQsort compareBoats (s.boats ++ [b])⟩ b.name
      ⟨b, hmem, strcasecmp_self _⟩
  have hrb : r = b := by
    have hrmem : r ∈ s.boats ++ [b] := hperm.mem_iff.mp (List.getElem?_mem hr)
    rcases List.mem_append.mp hrmem with h | h
    · exact absurd hm (hno r h)
    · simpa using h
  subst hrb
  have hp2 : ((glibcQsort compareBoats (s.boats ++ [r])).eraseIdx i).Perm s.boats := by
    have h1 := eraseIdx_perm _ i r hr
    have h2 : (r :: (glibcQsort compareBoats (s.boats ++ [r])).eraseIdx i).Perm (r :: s.boats) :=
      h1.trans (hperm.trans (List.perm_append_singleton _ _))
    exact h2.cons_inv
  have hfil : ∀ k, ((glibcQsort compareBoats (s.boats ++ [r])).eraseIdx i).filter (sameName k) =
      s.boats.filter (sameName k) := by
    intro k
    by_cases hk : sameName k r = true
    · have hnil : s.boats.filter (sameName k) = [] := by
        rw [List.filter_eq_nil_iff]
        intro x hx hkx
        have := compareBoats_of_sameName k x r hkx hk
        exact hno x hx this
      have hf := hp2.filter (sameName k)
      rw [hnil] at hf ⊢
      exact hf.eq_nil
    · have hk' : sameName k r = false := by simpa using hk
      rw [filter_eraseIdx_of_not _ _ i r hr hk', glibcQsort_filter, List.filter_append]
      simp [List.filter_cons, hk']
  have heq := eq_of_sorted_of_filter _ _ (sorted_eraseIdx _ i hsorted) hs hfil
  rw [hadd, removeBoat_found _ _ i hi hlt']
  cases s
  simp only [Store.boat_count] at *
  simp only [heq, and_self]

/-! ## Concrete instances of the sort -/

theorem sortBoats_stable_witness :
    strcasecmp betty.name bettyTwin.name = 0 ∧
    List.Sublist [betty, bettyTwin] (⟨[zed, betty, alpha, bettyTwin]⟩ : Store).boats ∧
    List.Sublist [betty, bettyTwin]
      (sortBoats (glibcLibc decimalStrtof) ⟨[zed, betty, alpha, bettyTwin]⟩).boats ∧
    (sortBoats (glibcLibc decimalStrtof) ⟨[zed, betty, alpha, bettyTwin]⟩).boats =
      [alpha, betty, bettyTwin, zed] ∧
    (sortBoats (glibcLibc decimalStrtof) ⟨[zed, bettyTwin, alpha, betty]⟩).boats =
      [alpha, bettyTwin, betty, zed] ∧
    (addBoatFromCSV (glibcLibc decimalStrtof) ⟨[alpha, bettyTwin, zed]⟩ bettyLine).1.boats =
      [alpha, bettyTwin, betty, zed] :=
  ⟨by decide, by decide,
    (sortBoats_stable decimalStrtof ⟨[zed, betty, alpha, bettyTwin]⟩).2.1 betty bettyTwin
      (by decide) (by decide),
    by decide, by decide, by decide⟩

theorem add_then_remove_witness :
    Sorted (⟨[betty, bettyTwin]⟩ : Store).boats ∧
    (⟨[betty, bettyTwin]⟩ : Store).boat_count < MAX_BOATS ∧
    parseBoat (glibcLibc decimalStrtof) zedLine = some zed ∧
    (∀ r ∈ (⟨[betty, bettyTwin]⟩ : Store).boats, strcasecmp r.name zed.name ≠ 0) ∧
    (addBoatFromCSV (glibcLibc decimalStrtof) ⟨[betty, bettyTwin]⟩ zedLine).1 =
      ⟨[betty, bettyTwin, zed]⟩ ∧
    (removeBoat (addBoatFromCSV (glibcLibc decimalStrtof) ⟨[betty, bettyTwin]⟩ zedLine).1
      zed.name).1 = ⟨[betty, bettyTwin]⟩ :=
  ⟨by unfold Sorted; decide, by decide, by decide, by decide, by decide,
    (add_then_remove decimalStrtof ⟨[betty, bettyTwin]⟩ zedLine zed
      (by unfold Sorted; decide) (by decide) (by decide) (by decide)).1⟩

end BoatManager
